import Mathlib

/-!
Shallow embedding of the `orderbook` crate (src/order.rs, src/price_level.rs,
src/book_side.rs, src/order_book.rs).

Conventions of the embedding:
* `u32` values become `Nat` (prices, quantities, ids, volumes); the code never
  relies on wrap-around, and every subtraction proved about happens under a
  no-underflow precondition.
* `HashMap<u32, _>` and `RBMap<u32, _>` are modelled as association lists with
  map semantics (`lookupKey` / `insertKey` / `eraseKey`); `insertKey` replaces
  in place (or appends when the key is new), matching in-place mutation through
  `get_mut`, and `RBMap`'s `peek` / `peek_back` become the entry holding the
  minimum / maximum key.
* Functions that can panic (`unwrap`, precondition violations) return
  `Option`: `none` models the panic.
-/

namespace OB

/-! ### Association-list maps (model of `HashMap` / `RBMap`) -/

def lookupKey {α : Type} : List (Nat × α) → Nat → Option α
  | [], _ => none
  | (k, v) :: rest, key => if key = k then some v else lookupKey rest key

def insertKey {α : Type} (key : Nat) (v : α) : List (Nat × α) → List (Nat × α)
  | [] => [(key, v)]
  | (k, w) :: rest => if k = key then (key, v) :: rest else (k, w) :: insertKey key v rest

def eraseKey {α : Type} (key : Nat) (l : List (Nat × α)) : List (Nat × α) :=
  l.filter fun e => e.1 != key

def keysOf {α : Type} (l : List (Nat × α)) : List Nat :=
  l.map Prod.fst

def listMin? : List Nat → Option Nat
  | [] => none
  | k :: rest =>
    some (match listMin? rest with
          | none => k
          | some m => min k m)

def listMax? : List Nat → Option Nat
  | [] => none
  | k :: rest =>
    some (match listMax? rest with
          | none => k
          | some m => max k m)

/-! ### `Side` and `Order` (src/order.rs) -/

inductive Side : Type where
  | Bid : Side
  | Ask : Side
deriving DecidableEq

/-- Model of `impl Not for Side`: the opposite side of the book. -/
def Side.not : Side → Side
  | .Ask => .Bid
  | .Bid => .Ask

structure Order : Type where
  id : Nat
  user_id : Nat
  side : Side
  price : Nat
  quantity : Nat
deriving DecidableEq

def Order.new (id user_id : Nat) (side : Side) (price quantity : Nat) : Order :=
  ⟨id, user_id, side, price, quantity⟩

/-! ### `PriceLevel` (src/price_level.rs) -/

structure PriceLevel : Type where
  volume : Nat
  price : Nat
  orders : List Order
deriving DecidableEq

def PriceLevel.new (price : Nat) : PriceLevel :=
  ⟨0, price, []⟩

/-- Model of `PriceLevel::append`: push to the back of the queue, add the quantity to
the volume, return the new volume (paired with the updated level). -/
def PriceLevel.append (pl : PriceLevel) (o : Order) : Nat × PriceLevel :=
  (pl.volume + o.quantity, ⟨pl.volume + o.quantity, pl.price, pl.orders ++ [o]⟩)

/-- Removal of the first structurally equal occurrence from a queue; `none`
when the element is absent (the `position(..).unwrap()` panic). -/
def removeFirst : List Order → Order → Option (List Order)
  | [], _ => none
  | x :: xs, o => if x = o then some xs else (removeFirst xs o).map fun l => x :: l

/-- Model of `PriceLevel::remove`: subtract the quantity from the volume and delete the
first occurrence of the order; panics (`none`) when the order is absent. -/
def PriceLevel.remove (pl : PriceLevel) (o : Order) : Option (Nat × PriceLevel) :=
  (removeFirst pl.orders o).map fun l =>
    (pl.volume - o.quantity, ⟨pl.volume - o.quantity, pl.price, l⟩)

def PriceLevel.len (pl : PriceLevel) : Nat :=
  pl.orders.length

def PriceLevel.is_empty (pl : PriceLevel) : Bool :=
  pl.orders.isEmpty

def PriceLevel.front (pl : PriceLevel) : Option Order :=
  pl.orders.head?

/-- Model of `PriceLevel::trade`: scan the queue in arrival order for the first order
whose quantity equals the request and remove it through `remove`. The outer
`Option` models a panic inside `remove` (never reached: the target was just
found in the queue). -/
def PriceLevel.trade (pl : PriceLevel) (q : Nat) : Option (Option Order × PriceLevel) :=
  match pl.orders.find? fun o => o.quantity == q with
  | none => some (none, pl)
  | some target => (pl.remove target).map fun r => (some target, r.2)

/-! ### `BookSide` (src/book_side.rs) -/

structure BookSide : Type where
  prices : List (Nat × PriceLevel)
deriving DecidableEq

def BookSide.new : BookSide :=
  ⟨[]⟩

/-- Model of `BookSide::append`: get-or-create the level at the order's price and
delegate `PriceLevel::append`; returns the new volume at that price. -/
def BookSide.append (bs : BookSide) (o : Order) : Nat × BookSide :=
  match lookupKey bs.prices o.price with
  | some pl =>
    let r := pl.append o
    (r.1, ⟨insertKey o.price r.2 bs.prices⟩)
  | none =>
    let r := (PriceLevel.new o.price).append o
    (r.1, ⟨insertKey o.price r.2 bs.prices⟩)

/-- Model of `BookSide::remove`: the `none` layer of the result models the panic inside
`PriceLevel::remove`; when the level at `o.price` is absent the call returns
`Some (none, bs)` (book side unchanged); otherwise the order is removed and
the level is deleted when it becomes empty. -/
def BookSide.remove (bs : BookSide) (o : Order) : Option (Option Order × BookSide) :=
  match lookupKey bs.prices o.price with
  | none => some (none, bs)
  | some pl =>
    (pl.remove o).map fun r =>
      (some o,
       ⟨if r.2.is_empty then eraseKey o.price bs.prices
         else insertKey o.price r.2 bs.prices⟩)

/-- Model of `BookSide::trade`: look up the level at exactly `price`, delegate
`PriceLevel::trade`, and delete the level if it is left empty. -/
def BookSide.trade (bs : BookSide) (price q : Nat) : Option (Option Order × BookSide) :=
  match lookupKey bs.prices price with
  | none => some (none, bs)
  | some pl =>
    (pl.trade q).map fun r =>
      (r.1,
       ⟨if r.2.is_empty then eraseKey price bs.prices
         else insertKey price r.2 bs.prices⟩)

def BookSide.get_price_volume (bs : BookSide) (price : Nat) : Option Nat :=
  (lookupKey bs.prices price).map fun pl => pl.volume

/-- Model of `BookSide::min` (`RBMap::peek`): the level at the smallest indexed price. -/
def BookSide.min (bs : BookSide) : Option PriceLevel :=
  (listMin? (keysOf bs.prices)).bind (lookupKey bs.prices)

/-- Model of `BookSide::max` (`RBMap::peek_back`): the level at the largest price. -/
def BookSide.max (bs : BookSide) : Option PriceLevel :=
  (listMax? (keysOf bs.prices)).bind (lookupKey bs.prices)

/-! ### `OrderBook` (src/order_book.rs) -/

inductive OrderOutcome : Type where
  | Rejected (user_id order_id : Nat) : OrderOutcome
  | Created (user_id order_id : Nat) : OrderOutcome
  | TopOfBook (user_id order_id : Nat) (side : Side)
      (top_price volume : Option Nat) : OrderOutcome
  | Traded (user_id order_id user_id_buy order_id_buy user_id_sell order_id_sell
      price quantity : Nat) (side : Option Side)
      (top_price volume : Option Nat) : OrderOutcome
deriving DecidableEq

structure OrderBook : Type where
  orders : List (Nat × Order)
  asks : BookSide
  bids : BookSide
deriving DecidableEq

def OrderBook.new : OrderBook :=
  ⟨[], BookSide.new, BookSide.new⟩

def OrderBook.best_ask_price (b : OrderBook) : Option Nat :=
  b.asks.min.map fun bap => bap.price

def OrderBook.best_bid_price (b : OrderBook) : Option Nat :=
  b.bids.max.map fun bbp => bbp.price

def OrderBook.get_best_for_side (b : OrderBook) (side : Side) : Option Nat :=
  if side = Side.Ask then b.best_ask_price else b.best_bid_price

def OrderBook.get_side (b : OrderBook) (side : Side) : BookSide :=
  if side = Side.Ask then b.asks else b.bids

/-- Writing through `get_side_mut`. -/
def OrderBook.set_side (b : OrderBook) (side : Side) (bs : BookSide) : OrderBook :=
  if side = Side.Ask then { b with asks := bs } else { b with bids := bs }

/-- Model of `OrderBook::append`: insert into the flat index, append to the side,
recompute the side's best price and its volume. -/
def OrderBook.append (b : OrderBook) (o : Order) : (Option Nat × Option Nat) × OrderBook :=
  let b1 : OrderBook := { b with orders := insertKey o.id o b.orders }
  let r := (b1.get_side o.side).append o
  let b2 := b1.set_side o.side r.2
  let top := b2.get_best_for_side o.side
  let volume := top.bind fun t => (b2.get_side o.side).get_price_volume t
  ((top, volume), b2)

/-- Model of `OrderBook::remove`: drop the id from the flat index and delegate
`BookSide::remove` (which can panic, hence the outer `Option`). -/
def OrderBook.remove (b : OrderBook) (o : Order) : Option (Option Order × OrderBook) :=
  let b1 : OrderBook := { b with orders := eraseKey o.id b.orders }
  ((b1.get_side o.side).remove o).map fun r => (r.1, b1.set_side o.side r.2)

/-- Model of `OrderBook::get_cmp_for_side`: `≤` for the ask side, `≥` for the bid side. -/
def get_cmp_for_side (side : Side) : Nat → Nat → Bool :=
  if side = Side.Ask then fun a b => decide (a ≤ b) else fun a b => decide (b ≤ a)

/-- Model of `OrderBook::cancel_order`: panics (`none`) when the id is not indexed or
the side's best price is absent; otherwise removes the order and reports
either `Created` (best price untouched) or `TopOfBook` (recomputed top). -/
def OrderBook.cancel_order (b : OrderBook) (order_id : Nat) : Option (OrderOutcome × OrderBook) :=
  match lookupKey b.orders order_id with
  | none => none
  | some order =>
    match b.get_best_for_side order.side with
    | none => none
    | some top =>
      (b.remove order).map fun r =>
        if top ≠ order.price then
          (OrderOutcome.Created order.user_id order_id, r.2)
        else
          let top_price := r.2.get_best_for_side order.side
          let volume := top_price.bind fun t => (r.2.get_side order.side).get_price_volume t
          (OrderOutcome.TopOfBook order.user_id order_id order.side top_price volume, r.2)

/-- Model of `OrderBook::trade`: delegate to the opposite side's `BookSide::trade`. -/
def OrderBook.trade (b : OrderBook) (side : Side) (price quantity : Nat) :
    Option (Option Order × OrderBook) :=
  ((b.get_side side.not).trade price quantity).map fun r => (r.1, b.set_side side.not r.2)

/-- Model of `OrderBook::try_trade`. Outer `Option` is the panic layer: `none` arises
from `top_price.unwrap()` (prior best of the opposite side absent) or from
`volume.unwrap()` — the latter is the `Option<Option<u32>>` built by
`map_or(None, |top| Some(get_price_volume(top)))`, which is `None` whenever
the recomputed opposite best is `None`. The inner `Option OrderOutcome` is
the function's Rust return value. -/
def OrderBook.try_trade (b : OrderBook) (side : Side) (price quantity user_id order_id : Nat) :
    Option (Option OrderOutcome × OrderBook) :=
  let top_price := b.get_best_for_side side.not
  (b.trade side price quantity).bind fun r =>
    match r.1 with
    | none => some (none, r.2)
    | some order =>
      let b2 : OrderBook := { r.2 with orders := eraseKey order.id r.2.orders }
      let ids : Nat × Nat × Nat × Nat :=
        if order.side = Side.Ask then (user_id, order_id, order.user_id, order.id)
        else (order.user_id, order.id, user_id, order_id)
      match top_price with
      | none => none
      | some tp =>
        if tp = price then
          let new_top := b2.get_best_for_side side.not
          let volume : Option (Option Nat) :=
            new_top.map fun t => (b2.get_side side.not).get_price_volume t
          match volume with
          | none => none
          | some v =>
            some (some (.Traded user_id order_id ids.1 ids.2.1 ids.2.2.1 ids.2.2.2
              price quantity (some side.not) new_top v), b2)
        else
          some (some (.Traded user_id order_id ids.1 ids.2.1 ids.2.2.1 ids.2.2.2
            price quantity none none none), b2)

/-- The tail of `OrderBook::submit_order` after the trade attempt returned
nothing (crossing check, then resting). -/
def OrderBook.submit_rest (b1 : OrderBook) (side : Side)
    (price quantity user_id order_id : Nat) : Option (OrderOutcome × OrderBook) :=
  let own_best := b1.get_best_for_side side
  let opp_best := b1.get_best_for_side side.not
  let comparator := get_cmp_for_side side
  let rest : Option (OrderOutcome × OrderBook) :=
    let order := Order.new order_id user_id side price quantity
    match own_best with
    | some best =>
      if comparator price best then
        let a := b1.append order
        some (.TopOfBook user_id order_id side a.1.1 a.1.2, a.2)
      else
        some (.Created user_id order_id, (b1.append order).2)
    | none =>
      let a := b1.append order
      some (.TopOfBook user_id order_id side a.1.1 a.1.2, a.2)
  match opp_best with
  | some best =>
    if comparator price best then some (.Rejected user_id order_id, b1) else rest
  | none => rest

/-- Model of `OrderBook::submit_order`. -/
def OrderBook.submit_order (b : OrderBook) (side : Side)
    (price quantity user_id order_id : Nat) : Option (OrderOutcome × OrderBook) :=
  (b.try_trade side price quantity user_id order_id).bind fun r =>
    match r.1 with
    | some outcome => some (outcome, r.2)
    | none => r.2.submit_rest side price quantity user_id order_id

/-- Books reachable from the empty book through successful calls respecting
the driver contract (fresh ids on submission). -/
inductive Reachable : OrderBook → Prop where
  | base : Reachable OrderBook.new
  | submit {b b' : OrderBook} {side : Side} {price quantity user_id order_id : Nat}
      {out : OrderOutcome} :
      Reachable b →
      lookupKey b.orders order_id = none →
      b.submit_order side price quantity user_id order_id = some (out, b') →
      Reachable b'
  | cancel {b b' : OrderBook} {order_id : Nat} {out : OrderOutcome} :
      Reachable b →
      b.cancel_order order_id = some (out, b') →
      Reachable b'

/-- Operations of the `PriceLevel` interface, for stating sequences of calls. -/
inductive PLOp : Type where
  | append (o : Order) : PLOp
  | remove (o : Order) : PLOp
  | trade (q : Nat) : PLOp
deriving DecidableEq

/-- Run one `PriceLevel` operation; `none` models a panic. -/
def PriceLevel.applyOp (pl : PriceLevel) : PLOp → Option PriceLevel
  | .append o => some (pl.append o).2
  | .remove o => (pl.remove o).map fun r => r.2
  | .trade q => (pl.trade q).map fun r => r.2

/-- Run a sequence of `PriceLevel` operations. -/
def PriceLevel.runOps (pl : PriceLevel) : List PLOp → Option PriceLevel
  | [] => some pl
  | op :: ops => (pl.applyOp op).bind fun pl' => pl'.runOps ops

/-- An order is resident on a book side when the level indexed at its price
contains it. -/
def ResidentAt (bs : BookSide) (o : Order) : Prop :=
  ∃ pl, lookupKey bs.prices o.price = some pl ∧ o ∈ pl.orders

/-- Well-formedness of one book side: levels are keyed by their price, are
never empty, hold only orders of that price and side, and hold no two orders
with the same id. -/
structure SideWF (s : Side) (bs : BookSide) : Prop where
  price_eq : ∀ k pl, lookupKey bs.prices k = some pl → pl.price = k
  level_ne : ∀ k pl, lookupKey bs.prices k = some pl → pl.orders ≠ []
  order_price : ∀ k pl, lookupKey bs.prices k = some pl → ∀ o ∈ pl.orders, o.price = k
  order_side : ∀ k pl, lookupKey bs.prices k = some pl → ∀ o ∈ pl.orders, o.side = s
  ids_nodup : ∀ k pl, lookupKey bs.prices k = some pl →
    pl.orders.Pairwise fun a b => a.id ≠ b.id

/-- The order-book invariant maintained by every mutating operation: both
sides are well formed, the flat index and the book sides are two views of the
same resident orders, and the book never rests crossing orders. -/
structure Inv (b : OrderBook) : Prop where
  asks_wf : SideWF Side.Ask b.asks
  bids_wf : SideWF Side.Bid b.bids
  index_ok : ∀ i o, lookupKey b.orders i = some o →
    o.id = i ∧ ResidentAt (b.get_side o.side) o
  resident_ok : ∀ s o, ResidentAt (b.get_side s) o → lookupKey b.orders o.id = some o
  noncross : ∀ ka ∈ keysOf b.asks.prices, ∀ kb ∈ keysOf b.bids.prices, kb < ka

/-! ### Lemmas about the association-list maps -/

theorem lookupKey_insertKey_self {α : Type} (l : List (Nat × α)) (k : Nat) (v : α) :
    lookupKey (insertKey k v l) k = some v := by
  induction l with
  | nil => simp [insertKey, lookupKey]
  | cons e rest ih =>
    obtain ⟨k', w⟩ := e
    by_cases h : k' = k
    · subst h
      simp [insertKey, lookupKey]
    · simp [insertKey, h, lookupKey, Ne.symm h, ih]

theorem lookupKey_insertKey_ne {α : Type} (l : List (Nat × α)) {k k' : Nat} (v : α)
    (h : k' ≠ k) : lookupKey (insertKey k v l) k' = lookupKey l k' := by
  induction l with
  | nil => simp [insertKey, lookupKey, h]
  | cons e rest ih =>
    obtain ⟨k₀, w⟩ := e
    by_cases h0 : k₀ = k
    · subst h0
      simp [insertKey, lookupKey, h]
    · by_cases h1 : k' = k₀
      · subst h1
        simp [insertKey, h0, lookupKey]
      · simp [insertKey, h0, lookupKey, h1, ih]

theorem eraseKey_nil {α : Type} (k : Nat) : eraseKey k ([] : List (Nat × α)) = [] := by
  simp [eraseKey]

theorem eraseKey_cons {α : Type} (k : Nat) (e : Nat × α) (rest : List (Nat × α)) :
    eraseKey k (e :: rest) =
      if e.1 = k then eraseKey k rest else e :: eraseKey k rest := by
  by_cases h : e.1 = k <;> simp [eraseKey, List.filter_cons, h]

theorem lookupKey_eraseKey_self {α : Type} (l : List (Nat × α)) (k : Nat) :
    lookupKey (eraseKey k l) k = none := by
  induction l with
  | nil => simp [eraseKey, lookupKey]
  | cons e rest ih =>
    obtain ⟨k₀, w⟩ := e
    rw [eraseKey_cons]
    by_cases h : k₀ = k
    · simpa [h] using ih
    · simp [h, lookupKey, Ne.symm h, ih]

theorem lookupKey_eraseKey_ne {α : Type} (l : List (Nat × α)) {k k' : Nat}
    (h : k' ≠ k) : lookupKey (eraseKey k l) k' = lookupKey l k' := by
  induction l with
  | nil => simp [eraseKey, lookupKey]
  | cons e rest ih =>
    obtain ⟨k₀, w⟩ := e
    rw [eraseKey_cons]
    by_cases h0 : k₀ = k
    · have hk : ¬ k' = k₀ := fun hh => h (hh.trans h0)
      rw [if_pos h0]
      simp [lookupKey, hk, ih]
    · rw [if_neg h0]
      by_cases h1 : k' = k₀
      · simp [lookupKey, h1]
      · simp [lookupKey, h1, ih]

theorem mem_keysOf_iff {α : Type} (l : List (Nat × α)) (k : Nat) :
    k ∈ keysOf l ↔ (lookupKey l k).isSome := by
  induction l with
  | nil => simp [keysOf, lookupKey]
  | cons e rest ih =>
    obtain ⟨k₀, w⟩ := e
    by_cases h : k = k₀
    · subst h
      simp [keysOf, lookupKey]
    · simp only [keysOf, List.map_cons, List.mem_cons, lookupKey, if_neg h]
      simp only [keysOf] at ih
      simp [h, ih]

theorem mem_keysOf_insertKey {α : Type} (l : List (Nat × α)) (k : Nat) (v : α) (m : Nat) :
    m ∈ keysOf (insertKey k v l) ↔ m = k ∨ m ∈ keysOf l := by
  induction l with
  | nil => simp [insertKey, keysOf]
  | cons e rest ih =>
    obtain ⟨k₀, w⟩ := e
    by_cases h : k₀ = k
    · rw [show insertKey k v ((k₀, w) :: rest) = (k, v) :: rest by simp [insertKey, h]]
      simp only [keysOf, List.map_cons, List.mem_cons, h]
      tauto
    · rw [show insertKey k v ((k₀, w) :: rest) = (k₀, w) :: insertKey k v rest by
        simp [insertKey, h]]
      simp only [keysOf, List.map_cons, List.mem_cons] at ih ⊢
      rw [ih]
      tauto

theorem mem_keysOf_eraseKey {α : Type} (l : List (Nat × α)) (k m : Nat) :
    m ∈ keysOf (eraseKey k l) ↔ m ∈ keysOf l ∧ m ≠ k := by
  induction l with
  | nil => simp [eraseKey, keysOf]
  | cons e rest ih =>
    obtain ⟨k₀, w⟩ := e
    rw [eraseKey_cons]
    by_cases h : k₀ = k
    · rw [if_pos h]
      simp only [keysOf, List.map_cons, List.mem_cons] at ih ⊢
      rw [ih]
      constructor
      · rintro ⟨hm, hne⟩
        exact ⟨Or.inr hm, hne⟩
      · rintro ⟨hm | hm, hne⟩
        · exact absurd (hm.trans h) hne
        · exact ⟨hm, hne⟩
    · rw [if_neg h]
      simp only [keysOf, List.map_cons, List.mem_cons] at ih ⊢
      rw [ih]
      constructor
      · rintro (rfl | ⟨hm, hne⟩)
        · exact ⟨Or.inl rfl, fun hmk => h (hmk ▸ rfl)⟩
        · exact ⟨Or.inr hm, hne⟩
      · rintro ⟨hm | hm, hne⟩
        · exact Or.inl hm
        · exact Or.inr ⟨hm, hne⟩

theorem insertKey_lookup_eq {α : Type} (l : List (Nat × α)) {k : Nat} {v : α}
    (h : lookupKey l k = some v) : insertKey k v l = l := by
  induction l with
  | nil => simp [lookupKey] at h
  | cons e rest ih =>
    obtain ⟨k₀, w⟩ := e
    by_cases h0 : k = k₀
    · rw [show insertKey k v ((k₀, w) :: rest) = (k, v) :: rest by simp [insertKey, h0.symm]]
      rw [lookupKey, if_pos h0] at h
      simp at h
      simp [h0, h]
    · rw [lookupKey, if_neg h0] at h
      have hne : ¬ k₀ = k := fun hh => h0 hh.symm
      rw [show insertKey k v ((k₀, w) :: rest) = (k₀, w) :: insertKey k v rest by
        simp [insertKey, hne]]
      rw [ih h]

theorem listMin?_eq_none_iff (l : List Nat) : listMin? l = none ↔ l = [] := by
  cases l <;> simp [listMin?]

theorem listMin?_spec (l : List Nat) (m : Nat) :
    listMin? l = some m ↔ m ∈ l ∧ ∀ x ∈ l, m ≤ x := by
  induction l generalizing m with
  | nil => simp [listMin?]
  | cons k rest ih =>
    cases hr : listMin? rest with
    | none =>
      have hnil := (listMin?_eq_none_iff rest).mp hr
      subst hnil
      constructor
      · intro h
        have hm : k = m := by simpa [listMin?] using h
        subst hm
        exact ⟨List.mem_cons_self _ _, by intro x hx; simp at hx; simp [hx]⟩
      · rintro ⟨hm, _⟩
        simp at hm
        simp [listMin?, hm]
    | some m' =>
      have hspec := (ih m').mp hr
      simp only [listMin?, hr]
      constructor
      · intro h
        have hm : min k m' = m := by simpa using h
        subst hm
        refine ⟨?_, ?_⟩
        · rcases le_total k m' with hkm | hkm
          · rw [min_eq_left hkm]
            exact List.mem_cons_self _ _
          · rw [min_eq_right hkm]
            exact List.mem_cons_of_mem _ hspec.1
        · intro x hx
          rw [List.mem_cons] at hx
          rcases hx with rfl | hx
          · exact min_le_left _ _
          · exact le_trans (min_le_right _ _) (hspec.2 x hx)
      · rintro ⟨hm, hle⟩
        have h1 : m ≤ k := hle k (List.mem_cons_self _ _)
        have h2 : m ≤ m' := hle m' (List.mem_cons_of_mem _ hspec.1)
        have h3 : min k m' ≤ m := by
          rw [List.mem_cons] at hm
          rcases hm with rfl | hm
          · exact min_le_left _ _
          · exact le_trans (min_le_right _ _) (hspec.2 m hm)
        exact congrArg some (le_antisymm h3 (le_min h1 h2))

theorem listMax?_eq_none_iff (l : List Nat) : listMax? l = none ↔ l = [] := by
  cases l <;> simp [listMax?]

theorem listMax?_spec (l : List Nat) (m : Nat) :
    listMax? l = some m ↔ m ∈ l ∧ ∀ x ∈ l, x ≤ m := by
  induction l generalizing m with
  | nil => simp [listMax?]
  | cons k rest ih =>
    cases hr : listMax? rest with
    | none =>
      have hnil := (listMax?_eq_none_iff rest).mp hr
      subst hnil
      constructor
      · intro h
        have hm : k = m := by simpa [listMax?] using h
        subst hm
        exact ⟨List.mem_cons_self _ _, by intro x hx; simp at hx; simp [hx]⟩
      · rintro ⟨hm, _⟩
        simp at hm
        simp [listMax?, hm]
    | some m' =>
      have hspec := (ih m').mp hr
      simp only [listMax?, hr]
      constructor
      · intro h
        have hm : max k m' = m := by simpa using h
        subst hm
        refine ⟨?_, ?_⟩
        · rcases le_total k m' with hkm | hkm
          · rw [max_eq_right hkm]
            exact List.mem_cons_of_mem _ hspec.1
          · rw [max_eq_left hkm]
            exact List.mem_cons_self _ _
        · intro x hx
          rw [List.mem_cons] at hx
          rcases hx with rfl | hx
          · exact le_max_left _ _
          · exact le_trans (hspec.2 x hx) (le_max_right _ _)
      · rintro ⟨hm, hle⟩
        have h1 : k ≤ m := hle k (List.mem_cons_self _ _)
        have h2 : m' ≤ m := hle m' (List.mem_cons_of_mem _ hspec.1)
        have h3 : m ≤ max k m' := by
          rw [List.mem_cons] at hm
          rcases hm with rfl | hm
          · exact le_max_left _ _
          · exact le_trans (hspec.2 m hm) (le_max_right _ _)
        exact congrArg some (le_antisymm (max_le h1 h2) h3)


/-! ### Lemmas about `removeFirst`, `find?` and `PriceLevel` -/

theorem removeFirst_decomp {l l' : List Order} {o : Order}
    (h : removeFirst l o = some l') :
    ∃ l1 l2, l = l1 ++ o :: l2 ∧ l' = l1 ++ l2 ∧ o ∉ l1 := by
  induction l generalizing l' with
  | nil => simp [removeFirst] at h
  | cons x xs ih =>
    by_cases hx : x = o
    · subst hx
      simp [removeFirst] at h
      exact ⟨[], xs, by simp, by simp [h.symm], by simp⟩
    · rw [removeFirst, if_neg hx] at h
      cases hr : removeFirst xs o with
      | none => rw [hr] at h; simp at h
      | some l₀ =>
        rw [hr] at h
        simp at h
        obtain ⟨l1, l2, he, he', hno⟩ := ih hr
        refine ⟨x :: l1, l2, by simp [he], by simp [he', h.symm], ?_⟩
        simp [hno]
        exact fun hh => hx hh.symm

theorem removeFirst_of_decomp (l1 l2 : List Order) (o : Order) (h : o ∉ l1) :
    removeFirst (l1 ++ o :: l2) o = some (l1 ++ l2) := by
  induction l1 with
  | nil => simp [removeFirst]
  | cons x xs ih =>
    have hx : x ≠ o := fun hh => h (by simp [hh])
    have hxs : o ∉ xs := fun hh => h (by simp [hh])
    rw [List.cons_append, removeFirst, if_neg hx]
    show Option.map _ (removeFirst (xs ++ o :: l2) o) = _
    rw [ih hxs]
    rfl

theorem removeFirst_isSome_of_mem {l : List Order} {o : Order} (h : o ∈ l) :
    (removeFirst l o).isSome := by
  obtain ⟨l1, l2, rfl⟩ := List.append_of_mem h
  by_cases h1 : o ∈ l1
  · obtain ⟨m1, m2, rfl⟩ := List.append_of_mem h1
    have : o ∉ m1 ∨ True := Or.inr trivial
    clear h h1
    induction m1 with
    | nil => simp [removeFirst]
    | cons x xs ih =>
      by_cases hx : x = o
      · simp [removeFirst, hx]
      · simp only [List.cons_append, removeFirst, if_neg hx]
        simpa using ih (Or.inr trivial)
  · rw [removeFirst_of_decomp l1 l2 o h1]
    simp

theorem find?_decomp {α : Type} {p : α → Bool} {l : List α} {a : α}
    (h : l.find? p = some a) :
    ∃ l1 l2, l = l1 ++ a :: l2 ∧ ∀ x ∈ l1, ¬ p x := by
  induction l with
  | nil => simp at h
  | cons x xs ih =>
    by_cases hx : p x
    · rw [List.find?_cons_of_pos _ hx] at h
      simp at h
      exact ⟨[], xs, by simp [h], by simp⟩
    · rw [List.find?_cons_of_neg _ (by simpa using hx)] at h
      obtain ⟨l1, l2, he, hall⟩ := ih h
      refine ⟨x :: l1, l2, by simp [he], ?_⟩
      intro y hy
      rcases List.mem_cons.mp hy with rfl | hy
      · simpa using hx
      · exact hall y hy

theorem find?_of_decomp {α : Type} (p : α → Bool) (l1 l2 : List α) (a : α)
    (h1 : ∀ x ∈ l1, ¬ p x) (h2 : p a) :
    (l1 ++ a :: l2).find? p = some a := by
  induction l1 with
  | nil => simpa using List.find?_cons_of_pos _ h2
  | cons x xs ih =>
    have hx : ¬ p x := h1 x (by simp)
    rw [List.cons_append, List.find?_cons_of_neg _ (by simpa using hx)]
    exact ih fun y hy => h1 y (by simp [hy])

/-- A trade request matching no resident quantity returns `none` and leaves
the level untouched. -/
theorem PriceLevel.trade_none (pl : PriceLevel) (q : Nat)
    (h : ∀ o ∈ pl.orders, o.quantity ≠ q) : pl.trade q = some (none, pl) := by
  rw [PriceLevel.trade, List.find?_eq_none.mpr (by intro x hx; simpa using h x hx)]

/-- A trade request whose first exact-quantity match is `o` removes exactly
that order. -/
theorem PriceLevel.trade_of_decomp (pl : PriceLevel) (q : Nat) (o : Order)
    (l1 l2 : List Order) (horders : pl.orders = l1 ++ o :: l2)
    (hl1 : ∀ x ∈ l1, x.quantity ≠ q) (ho : o.quantity = q) :
    pl.trade q = some (some o, ⟨pl.volume - o.quantity, pl.price, l1 ++ l2⟩) := by
  have hfind : pl.orders.find? (fun x => x.quantity == q) = some o := by
    rw [horders]
    exact find?_of_decomp _ l1 l2 o (fun x hx => by simpa using hl1 x hx) (by simpa using ho)
  have hnot : o ∉ l1 := fun hmem => hl1 o hmem ho
  rw [PriceLevel.trade, hfind]
  simp only [PriceLevel.remove]
  rw [horders, removeFirst_of_decomp l1 l2 o hnot]
  rfl

/-- Characterization of a successful trade. -/
theorem PriceLevel.trade_some_decomp {pl pl' : PriceLevel} {q : Nat} {o : Order}
    (h : pl.trade q = some (some o, pl')) :
    o.quantity = q ∧ ∃ l1 l2, pl.orders = l1 ++ o :: l2 ∧ (∀ x ∈ l1, x.quantity ≠ q) ∧
      pl' = ⟨pl.volume - o.quantity, pl.price, l1 ++ l2⟩ := by
  rw [PriceLevel.trade] at h
  cases hfind : pl.orders.find? (fun x => x.quantity == q) with
  | none => rw [hfind] at h; simp at h
  | some target =>
    rw [hfind] at h
    have htq : target.quantity = q := by simpa using List.find?_some hfind
    obtain ⟨l1, l2, he, hall⟩ := find?_decomp hfind
    have hnot : target ∉ l1 := fun hmem => by
      have := hall target hmem
      simp [htq] at this
    simp only [PriceLevel.remove] at h
    rw [he, removeFirst_of_decomp l1 l2 target hnot] at h
    simp at h
    obtain ⟨h1, h2⟩ := h
    subst h1
    refine ⟨htq, l1, l2, he, fun x hx => by simpa using hall x hx, h2.symm⟩

/-- The model of `PriceLevel::trade` never panics: the removed target was just found in
the queue. -/
theorem PriceLevel.trade_isSome (pl : PriceLevel) (q : Nat) : (pl.trade q).isSome := by
  rw [PriceLevel.trade]
  cases hfind : pl.orders.find? (fun x => x.quantity == q) with
  | none => simp
  | some target =>
    have hmem : target ∈ pl.orders := List.mem_of_find?_eq_some hfind
    simp only [PriceLevel.remove]
    have := removeFirst_isSome_of_mem hmem
    cases hr : removeFirst pl.orders target with
    | none => rw [hr] at this; simp at this
    | some l => simp

/-! ### Side selection lemmas -/

theorem Side.not_ne (s : Side) : s.not ≠ s := by
  cases s <;> simp [Side.not]

theorem Side.not_not (s : Side) : s.not.not = s := by
  cases s <;> rfl

theorem get_side_set_side_self (b : OrderBook) (s : Side) (bs : BookSide) :
    (b.set_side s bs).get_side s = bs := by
  cases s <;> simp [OrderBook.set_side, OrderBook.get_side]

theorem get_side_set_side_ne (b : OrderBook) {s s' : Side} (bs : BookSide) (h : s' ≠ s) :
    (b.set_side s bs).get_side s' = b.get_side s' := by
  cases s <;> cases s' <;> simp_all [OrderBook.set_side, OrderBook.get_side]

theorem set_side_orders (b : OrderBook) (s : Side) (bs : BookSide) :
    (b.set_side s bs).orders = b.orders := by
  cases s <;> rfl

theorem get_side_set_orders (b : OrderBook) (s : Side) (l : List (Nat × Order)) :
    ({ b with orders := l } : OrderBook).get_side s = b.get_side s := by
  cases s <;> rfl

theorem set_side_get_side (b : OrderBook) (s : Side) :
    b.set_side s (b.get_side s) = b := by
  cases s <;> rfl

theorem get_best_set_orders (b : OrderBook) (s : Side) (l : List (Nat × Order)) :
    ({ b with orders := l } : OrderBook).get_best_for_side s = b.get_best_for_side s := by
  cases s <;> rfl

/-! ### Best-price lemmas -/

theorem best_ask_eq_min_key (b : OrderBook)
    (hpe : ∀ k pl, lookupKey b.asks.prices k = some pl → pl.price = k) :
    b.best_ask_price = listMin? (keysOf b.asks.prices) := by
  rw [OrderBook.best_ask_price, BookSide.min]
  cases hm : listMin? (keysOf b.asks.prices) with
  | none => simp
  | some k =>
    have hk : k ∈ keysOf b.asks.prices := ((listMin?_spec _ k).mp hm).1
    rw [mem_keysOf_iff] at hk
    cases hl : lookupKey b.asks.prices k with
    | none => rw [hl] at hk; simp at hk
    | some pl => simp [hl, hpe k pl hl]

theorem best_bid_eq_max_key (b : OrderBook)
    (hpe : ∀ k pl, lookupKey b.bids.prices k = some pl → pl.price = k) :
    b.best_bid_price = listMax? (keysOf b.bids.prices) := by
  rw [OrderBook.best_bid_price, BookSide.max]
  cases hm : listMax? (keysOf b.bids.prices) with
  | none => simp
  | some k =>
    have hk : k ∈ keysOf b.bids.prices := ((listMax?_spec _ k).mp hm).1
    rw [mem_keysOf_iff] at hk
    cases hl : lookupKey b.bids.prices k with
    | none => rw [hl] at hk; simp at hk
    | some pl => simp [hl, hpe k pl hl]

/-! ### Level-update lemmas (the common tail of `BookSide::remove` / `trade`) -/

theorem lookup_level_update (l : List (Nat × PriceLevel)) (price : Nat)
    (pl' : PriceLevel) (k : Nat) :
    lookupKey (if pl'.is_empty then eraseKey price l else insertKey price pl' l) k =
      if k = price then (if pl'.is_empty then none else some pl')
      else lookupKey l k := by
  by_cases he : pl'.is_empty
  · by_cases hk : k = price
    · simp [he, hk, lookupKey_eraseKey_self]
    · simp [he, hk, lookupKey_eraseKey_ne l hk]
  · by_cases hk : k = price
    · simp [he, hk, lookupKey_insertKey_self]
    · simp [he, hk, lookupKey_insertKey_ne l _ hk]

theorem mem_keys_level_update (l : List (Nat × PriceLevel)) (price : Nat)
    (pl' : PriceLevel) (m : Nat) (hin : (lookupKey l price).isSome) :
    m ∈ keysOf (if pl'.is_empty then eraseKey price l else insertKey price pl' l) →
      m ∈ keysOf l := by
  by_cases he : pl'.is_empty
  · simp only [he, if_pos]
    intro hm
    exact ((mem_keysOf_eraseKey l price m).mp (by simpa [he] using hm)).1
  · simp only [he, if_neg]
    intro hm
    have := (mem_keysOf_insertKey l price pl' m).mp (by simpa [he] using hm)
    rcases this with rfl | hm'
    · rw [mem_keysOf_iff]
      exact hin
    · exact hm'

/-! ### Invariant bookkeeping helpers -/

theorem get_side_ask (b : OrderBook) : b.get_side Side.Ask = b.asks := rfl

theorem get_side_bid (b : OrderBook) : b.get_side Side.Bid = b.bids := rfl

theorem Inv.sideWF {b : OrderBook} (hInv : Inv b) (t : Side) : SideWF t (b.get_side t) := by
  cases t
  · exact hInv.bids_wf
  · exact hInv.asks_wf

theorem pairwise_ids_middle {l1 l2 : List Order} {o : Order}
    (h : (l1 ++ o :: l2).Pairwise fun a b => a.id ≠ b.id) :
    ∀ x ∈ l1 ++ l2, x.id ≠ o.id := by
  rw [List.pairwise_append] at h
  obtain ⟨_, h2, h12⟩ := h
  rw [List.pairwise_cons] at h2
  intro x hx
  rcases List.mem_append.mp hx with hx | hx
  · exact h12 x hx o (by simp)
  · exact fun he => h2.1 x hx he.symm

theorem pairwise_ids_sub {l1 l2 : List Order} {o : Order}
    (h : (l1 ++ o :: l2).Pairwise fun a b => a.id ≠ b.id) :
    (l1 ++ l2).Pairwise fun a b => a.id ≠ b.id := by
  refine List.Pairwise.sublist ?_ h
  exact List.Sublist.append_left (List.sublist_cons_self _ _) l1

/-- Common effect of `BookSide::remove` and `BookSide::trade` on the invariant:
one resident order is deleted from its level (the level being dropped when it
empties) and its id is dropped from the flat index. -/
theorem inv_after_removal (b : OrderBook) (s : Side) (o : Order) (pl : PriceLevel)
    (l1 l2 : List Order) (hInv : Inv b)
    (hpl : lookupKey (b.get_side s).prices o.price = some pl)
    (hdec : pl.orders = l1 ++ o :: l2) :
    Inv { b.set_side s
        ⟨if (⟨pl.volume - o.quantity, pl.price, l1 ++ l2⟩ : PriceLevel).is_empty
          then eraseKey o.price (b.get_side s).prices
          else insertKey o.price (⟨pl.volume - o.quantity, pl.price, l1 ++ l2⟩ : PriceLevel)
            (b.get_side s).prices⟩
      with orders := eraseKey o.id b.orders } := by
  set bs := b.get_side s with hbs
  set pl' : PriceLevel := ⟨pl.volume - o.quantity, pl.price, l1 ++ l2⟩ with hpl'
  set bs' : BookSide :=
    ⟨if pl'.is_empty then eraseKey o.price bs.prices else insertKey o.price pl' bs.prices⟩
    with hbs'
  set b' : OrderBook := { b.set_side s bs' with orders := eraseKey o.id b.orders } with hb'
  have hswf := hInv.sideWF s
  have homem : o ∈ pl.orders := by rw [hdec]; simp
  have ho_side : o.side = s := hswf.order_side o.price pl hpl o homem
  have hid : lookupKey b.orders o.id = some o :=
    hInv.resident_ok s o ⟨pl, hpl, homem⟩
  have hpw := hswf.ids_nodup o.price pl hpl
  rw [hdec] at hpw
  have hno : ∀ x ∈ l1 ++ l2, x.id ≠ o.id := pairwise_ids_middle hpw
  have f1 : b'.get_side s = bs' := by
    rw [hb', get_side_set_orders, get_side_set_side_self]
  have f1' : ∀ t : Side, t ≠ s → b'.get_side t = b.get_side t := by
    intro t ht
    rw [hb', get_side_set_orders, get_side_set_side_ne _ _ ht]
  have f3 : b'.orders = eraseKey o.id b.orders := rfl
  have f4 : ∀ k, lookupKey bs'.prices k =
      if k = o.price then (if pl'.is_empty then none else some pl')
      else lookupKey bs.prices k := fun k => lookup_level_update bs.prices o.price pl' k
  -- Well-formedness of the updated side
  have hwf_new : SideWF s bs' := by
    constructor
    · intro k pl₀ hk
      rw [f4 k] at hk
      by_cases hko : k = o.price
      · rw [if_pos hko] at hk
        by_cases he : pl'.is_empty
        · simp [he] at hk
        · rw [if_neg he] at hk
          cases hk
          rw [hpl']
          show pl.price = k
          rw [hswf.price_eq o.price pl hpl, hko]
      · rw [if_neg hko] at hk
        exact hswf.price_eq k pl₀ hk
    · intro k pl₀ hk
      rw [f4 k] at hk
      by_cases hko : k = o.price
      · rw [if_pos hko] at hk
        by_cases he : pl'.is_empty
        · simp [he] at hk
        · rw [if_neg he] at hk
          cases hk
          intro hnil
          rw [hpl'] at he
          exact he (by simp [PriceLevel.is_empty]; simpa using hnil)
      · rw [if_neg hko] at hk
        exact hswf.level_ne k pl₀ hk
    · intro k pl₀ hk x hx
      rw [f4 k] at hk
      by_cases hko : k = o.price
      · rw [if_pos hko] at hk
        by_cases he : pl'.is_empty
        · simp [he] at hk
        · rw [if_neg he] at hk
          cases hk
          have hxmem : x ∈ pl.orders := by
            rw [hdec]
            rcases List.mem_append.mp hx with hx | hx
            · exact List.mem_append.mpr (Or.inl hx)
            · exact List.mem_append.mpr (Or.inr (List.mem_cons_of_mem _ hx))
          rw [hko]
          exact hswf.order_price o.price pl hpl x hxmem
      · rw [if_neg hko] at hk
        exact hswf.order_price k pl₀ hk x hx
    · intro k pl₀ hk x hx
      rw [f4 k] at hk
      by_cases hko : k = o.price
      · rw [if_pos hko] at hk
        by_cases he : pl'.is_empty
        · simp [he] at hk
        · rw [if_neg he] at hk
          cases hk
          have hxmem : x ∈ pl.orders := by
            rw [hdec]
            rcases List.mem_append.mp hx with hx | hx
            · exact List.mem_append.mpr (Or.inl hx)
            · exact List.mem_append.mpr (Or.inr (List.mem_cons_of_mem _ hx))
          exact hswf.order_side o.price pl hpl x hxmem
      · rw [if_neg hko] at hk
        exact hswf.order_side k pl₀ hk x hx
    · intro k pl₀ hk
      rw [f4 k] at hk
      by_cases hko : k = o.price
      · rw [if_pos hko] at hk
        by_cases he : pl'.is_empty
        · simp [he] at hk
        · rw [if_neg he] at hk
          cases hk
          exact pairwise_ids_sub hpw
      · rw [if_neg hko] at hk
        exact hswf.ids_nodup k pl₀ hk
  have hwf_all : ∀ t : Side, SideWF t (b'.get_side t) := by
    intro t
    by_cases hts : t = s
    · rw [hts, f1]
      exact hwf_new
    · rw [f1' t hts]
      exact hInv.sideWF t
  have hsubmem : ∀ x ∈ l1 ++ l2, x ∈ pl.orders := by
    intro x hx
    rw [hdec]
    rcases List.mem_append.mp hx with hx | hx
    · exact List.mem_append.mpr (Or.inl hx)
    · exact List.mem_append.mpr (Or.inr (List.mem_cons_of_mem _ hx))
  have hmid : ∀ x, x ∈ pl.orders → x ≠ o → x ∈ l1 ++ l2 := by
    intro x hx hne
    rw [hdec] at hx
    rcases List.mem_append.mp hx with hx | hx
    · exact List.mem_append.mpr (Or.inl hx)
    · rcases List.mem_cons.mp hx with hx | hx
      · exact absurd hx hne
      · exact List.mem_append.mpr (Or.inr hx)
  refine ⟨?_, ?_, ?_, ?_, ?_⟩
  · have := hwf_all Side.Ask
    rwa [get_side_ask] at this
  · have := hwf_all Side.Bid
    rwa [get_side_bid] at this
  · intro i o₀ hlook
    rw [f3] at hlook
    have hio : i ≠ o.id := by
      intro he
      rw [he, lookupKey_eraseKey_self] at hlook
      exact Option.noConfusion hlook
    rw [lookupKey_eraseKey_ne _ hio] at hlook
    obtain ⟨hido, hres⟩ := hInv.index_ok i o₀ hlook
    refine ⟨hido, ?_⟩
    by_cases hos : o₀.side = s
    · rw [hos, f1]
      obtain ⟨pl₀, hpl₀, hmem₀⟩ := hres
      rw [hos] at hpl₀
      by_cases hpp : o₀.price = o.price
      · rw [hpp, hpl] at hpl₀
        have hpleq : pl = pl₀ := by simpa using hpl₀
        subst hpleq
        have hne_o : o₀ ≠ o := by
          intro he
          apply hio
          rw [← hido, he]
        have hm : o₀ ∈ l1 ++ l2 := hmid o₀ hmem₀ hne_o
        have hplne : pl'.is_empty = false := by
          rw [hpl']
          simp only [PriceLevel.is_empty]
          rw [List.isEmpty_eq_false]
          exact List.ne_nil_of_mem hm
        refine ⟨pl', ?_, hm⟩
        rw [f4 o₀.price, if_pos hpp, hplne]
        simp
      · refine ⟨pl₀, ?_, hmem₀⟩
        rw [f4 o₀.price, if_neg hpp]
        exact hpl₀
    · rw [f1' o₀.side hos]
      exact hres
  · intro t o₀ hres
    show lookupKey (eraseKey o.id b.orders) o₀.id = some o₀
    by_cases hts : t = s
    · rw [hts, f1] at hres
      obtain ⟨pl₀, hpl₀, hmem₀⟩ := hres
      rw [f4 o₀.price] at hpl₀
      by_cases hpp : o₀.price = o.price
      · rw [if_pos hpp] at hpl₀
        by_cases he : pl'.is_empty
        · rw [he] at hpl₀
          simp at hpl₀
        · rw [if_neg he] at hpl₀
          have hpleq : pl' = pl₀ := by simpa using hpl₀
          subst hpleq
          have hmm : o₀ ∈ pl.orders := hsubmem o₀ hmem₀
          have hr : lookupKey b.orders o₀.id = some o₀ := by
            refine hInv.resident_ok s o₀ ⟨pl, ?_, hmm⟩
            rw [hpp]
            exact hpl
          rw [lookupKey_eraseKey_ne _ (hno o₀ hmem₀)]
          exact hr
      · rw [if_neg hpp] at hpl₀
        have hr : lookupKey b.orders o₀.id = some o₀ :=
          hInv.resident_ok s o₀ ⟨pl₀, hpl₀, hmem₀⟩
        have hne : o₀.id ≠ o.id := by
          intro he
          rw [he, hid] at hr
          have heq : o₀ = o := by simpa using hr.symm
          exact hpp (by rw [heq])
        rw [lookupKey_eraseKey_ne _ hne]
        exact hr
    · rw [f1' t hts] at hres
      have hr := hInv.resident_ok t o₀ hres
      have hne : o₀.id ≠ o.id := by
        intro he
        rw [he, hid] at hr
        have heq : o₀ = o := by simpa using hr.symm
        obtain ⟨pl₀, hpl₀, hmem₀⟩ := hres
        have hts' := (hInv.sideWF t).order_side o₀.price pl₀ hpl₀ o₀ hmem₀
        rw [heq, ho_side] at hts'
        exact hts hts'.symm
      rw [lookupKey_eraseKey_ne _ hne]
      exact hr
  · have hsub : ∀ m, m ∈ keysOf bs'.prices → m ∈ keysOf bs.prices := by
      intro m hm
      refine mem_keys_level_update bs.prices o.price pl' m ?_ hm
      rw [hpl]
      simp
    have hsub_side : ∀ t : Side, ∀ m,
        m ∈ keysOf (b'.get_side t).prices → m ∈ keysOf (b.get_side t).prices := by
      intro t m hm
      by_cases hts : t = s
      · rw [hts] at hm ⊢
        rw [f1] at hm
        exact hsub m hm
      · rw [f1' t hts] at hm
        exact hm
    intro ka hka kb hkb
    have hka' : ka ∈ keysOf (b.get_side Side.Ask).prices := by
      refine hsub_side Side.Ask ka ?_
      rw [get_side_ask]
      exact hka
    have hkb' : kb ∈ keysOf (b.get_side Side.Bid).prices := by
      refine hsub_side Side.Bid kb ?_
      rw [get_side_bid]
      exact hkb
    rw [get_side_ask] at hka'
    rw [get_side_bid] at hkb'
    exact hInv.noncross ka hka' kb hkb'

/-! ### `BookSide::append` characterization -/

theorem BookSide.append_lookup_some {bs : BookSide} {o : Order} {pl : PriceLevel}
    (h : lookupKey bs.prices o.price = some pl) (k : Nat) :
    lookupKey (bs.append o).2.prices k =
      if k = o.price
        then some ⟨pl.volume + o.quantity, pl.price, pl.orders ++ [o]⟩
        else lookupKey bs.prices k := by
  simp only [BookSide.append, h]
  by_cases hk : k = o.price
  · rw [if_pos hk, hk]
    exact lookupKey_insertKey_self bs.prices o.price _
  · rw [if_neg hk]
    exact lookupKey_insertKey_ne bs.prices _ hk

theorem BookSide.append_lookup_none {bs : BookSide} {o : Order}
    (h : lookupKey bs.prices o.price = none) (k : Nat) :
    lookupKey (bs.append o).2.prices k =
      if k = o.price
        then some ⟨o.quantity, o.price, [o]⟩
        else lookupKey bs.prices k := by
  simp only [BookSide.append, h]
  by_cases hk : k = o.price
  · rw [if_pos hk, hk]
    have := lookupKey_insertKey_self bs.prices o.price
      (((PriceLevel.new o.price).append o).2)
    simpa [PriceLevel.new, PriceLevel.append] using this
  · rw [if_neg hk]
    exact lookupKey_insertKey_ne bs.prices _ hk

theorem BookSide.append_keys (bs : BookSide) (o : Order) (m : Nat) :
    m ∈ keysOf (bs.append o).2.prices ↔ m = o.price ∨ m ∈ keysOf bs.prices := by
  cases h : lookupKey bs.prices o.price with
  | none =>
    simp only [BookSide.append, h]
    exact mem_keysOf_insertKey bs.prices o.price _ m
  | some pl =>
    simp only [BookSide.append, h]
    exact mem_keysOf_insertKey bs.prices o.price _ m

/-- Invariant preservation for the resting path: a fresh
non-crossing order is appended to its own side and indexed. -/
theorem inv_append (b : OrderBook) (o : Order) (hInv : Inv b)
    (hfresh : lookupKey b.orders o.id = none)
    (hnc : ∀ best, b.get_best_for_side o.side.not = some best →
      get_cmp_for_side o.side o.price best = false) :
    Inv (b.append o).2 := by
  set bs := b.get_side o.side with hbs
  set b2 : OrderBook := (b.append o).2 with hb2
  have hswf := hInv.sideWF o.side
  have hfresh_q : ∀ pl₀, ∀ k, lookupKey bs.prices k = some pl₀ →
      ∀ x ∈ pl₀.orders, x.id ≠ o.id := by
    intro pl₀ k hk x hx he
    have hr : lookupKey b.orders x.id = some x := by
      refine hInv.resident_ok o.side x ⟨pl₀, ?_, hx⟩
      rw [hswf.order_price k pl₀ hk x hx]
      exact hk
    rw [he, hfresh] at hr
    exact Option.noConfusion hr
  have hside2 : b2.get_side o.side = (bs.append o).2 := by
    rw [hb2]
    show ((({ b with orders := insertKey o.id o b.orders } : OrderBook).set_side o.side
      ((({ b with orders := insertKey o.id o b.orders } : OrderBook).get_side o.side).append
        o).2)).get_side o.side = _
    rw [get_side_set_side_self, get_side_set_orders]
  have hside2' : ∀ t : Side, t ≠ o.side → b2.get_side t = b.get_side t := by
    intro t ht
    rw [hb2]
    show ((({ b with orders := insertKey o.id o b.orders } : OrderBook).set_side o.side
      _)).get_side t = _
    rw [get_side_set_side_ne _ _ ht, get_side_set_orders]
  have horders2 : b2.orders = insertKey o.id o b.orders := by
    rw [hb2]
    show ((({ b with orders := insertKey o.id o b.orders } : OrderBook).set_side o.side
      _)).orders = _
    rw [set_side_orders]
  -- The appended level at each key
  have hlook : ∀ k, lookupKey (bs.append o).2.prices k =
      if k = o.price then
        some (match lookupKey bs.prices o.price with
              | some pl => ⟨pl.volume + o.quantity, pl.price, pl.orders ++ [o]⟩
              | none => ⟨o.quantity, o.price, [o]⟩)
      else lookupKey bs.prices k := by
    intro k
    cases h : lookupKey bs.prices o.price with
    | none => rw [BookSide.append_lookup_none h k]
    | some pl => rw [BookSide.append_lookup_some h k]
  have hwf_new : SideWF o.side (bs.append o).2 := by
    constructor
    · intro k pl₀ hk
      rw [hlook k] at hk
      by_cases hko : k = o.price
      · rw [if_pos hko] at hk
        cases h : lookupKey bs.prices o.price with
        | none =>
          rw [h] at hk
          simp at hk
          rw [← hk]
          exact hko.symm
        | some pl =>
          rw [h] at hk
          simp at hk
          rw [← hk]
          show pl.price = k
          rw [hswf.price_eq o.price pl h, hko]
      · rw [if_neg hko] at hk
        exact hswf.price_eq k pl₀ hk
    · intro k pl₀ hk
      rw [hlook k] at hk
      by_cases hko : k = o.price
      · rw [if_pos hko] at hk
        cases h : lookupKey bs.prices o.price with
        | none =>
          rw [h] at hk
          simp at hk
          rw [← hk]
          simp
        | some pl =>
          rw [h] at hk
          simp at hk
          rw [← hk]
          simp
      · rw [if_neg hko] at hk
        exact hswf.level_ne k pl₀ hk
    · intro k pl₀ hk x hx
      rw [hlook k] at hk
      by_cases hko : k = o.price
      · rw [if_pos hko] at hk
        cases h : lookupKey bs.prices o.price with
        | none =>
          rw [h] at hk
          simp at hk
          rw [← hk] at hx
          simp at hx
          rw [hx, hko]
        | some pl =>
          rw [h] at hk
          simp at hk
          rw [← hk] at hx
          simp at hx
          rcases hx with hx | hx
          · rw [hko]
            exact hswf.order_price o.price pl h x hx
          · rw [hx, hko]
      · rw [if_neg hko] at hk
        exact hswf.order_price k pl₀ hk x hx
    · intro k pl₀ hk x hx
      rw [hlook k] at hk
      by_cases hko : k = o.price
      · rw [if_pos hko] at hk
        cases h : lookupKey bs.prices o.price with
        | none =>
          rw [h] at hk
          simp at hk
          rw [← hk] at hx
          simp at hx
          rw [hx]
        | some pl =>
          rw [h] at hk
          simp at hk
          rw [← hk] at hx
          simp at hx
          rcases hx with hx | hx
          · exact hswf.order_side o.price pl h x hx
          · rw [hx]
      · rw [if_neg hko] at hk
        exact hswf.order_side k pl₀ hk x hx
    · intro k pl₀ hk
      rw [hlook k] at hk
      by_cases hko : k = o.price
      · rw [if_pos hko] at hk
        cases h : lookupKey bs.prices o.price with
        | none =>
          rw [h] at hk
          simp at hk
          rw [← hk]
          simp
        | some pl =>
          rw [h] at hk
          simp at hk
          rw [← hk]
          rw [List.pairwise_append]
          refine ⟨hswf.ids_nodup o.price pl h, by simp, ?_⟩
          intro x hx y hy
          simp at hy
          rw [hy]
          exact hfresh_q pl o.price h x hx
      · rw [if_neg hko] at hk
        exact hswf.ids_nodup k pl₀ hk
  refine ⟨?_, ?_, ?_, ?_, ?_⟩
  · by_cases ho : o.side = Side.Ask
    · have h2 : b2.get_side Side.Ask = (bs.append o).2 := by
        rw [← ho]
        exact hside2
      have hw : SideWF Side.Ask (bs.append o).2 := by
        rw [← ho]
        exact hwf_new
      rw [← get_side_ask b2, h2]
      exact hw
    · have h2 := hside2' Side.Ask fun he => ho he.symm
      rw [← get_side_ask b2, h2, get_side_ask]
      exact hInv.asks_wf
  · by_cases ho : o.side = Side.Bid
    · have h2 : b2.get_side Side.Bid = (bs.append o).2 := by
        rw [← ho]
        exact hside2
      have hw : SideWF Side.Bid (bs.append o).2 := by
        rw [← ho]
        exact hwf_new
      rw [← get_side_bid b2, h2]
      exact hw
    · have h2 := hside2' Side.Bid fun he => ho he.symm
      rw [← get_side_bid b2, h2, get_side_bid]
      exact hInv.bids_wf
  · intro i o₀ hlook₀
    rw [horders2] at hlook₀
    by_cases hi : i = o.id
    · rw [hi, lookupKey_insertKey_self] at hlook₀
      have ho₀ : o₀ = o := by simpa using hlook₀.symm
      subst ho₀
      refine ⟨hi.symm ▸ rfl, ?_⟩
      rw [hside2]
      refine ⟨(match lookupKey bs.prices o₀.price with
              | some pl => ⟨pl.volume + o₀.quantity, pl.price, pl.orders ++ [o₀]⟩
              | none => ⟨o₀.quantity, o₀.price, [o₀]⟩), ?_, ?_⟩
      · rw [hlook o₀.price, if_pos rfl]
      · cases h : lookupKey bs.prices o₀.price <;> simp [h]
    · rw [lookupKey_insertKey_ne _ _ hi] at hlook₀
      obtain ⟨hido, hres⟩ := hInv.index_ok i o₀ hlook₀
      refine ⟨hido, ?_⟩
      by_cases hos : o₀.side = o.side
      · rw [hos, hside2]
        obtain ⟨pl₀, hpl₀, hmem₀⟩ := hres
        rw [hos] at hpl₀
        by_cases hpp : o₀.price = o.price
        · rw [hpp] at hpl₀
          cases h : lookupKey bs.prices o.price with
          | none => rw [h] at hpl₀; exact Option.noConfusion hpl₀
          | some pl =>
            rw [h] at hpl₀
            have hpe : pl = pl₀ := by simpa using hpl₀
            subst hpe
            refine ⟨⟨pl.volume + o.quantity, pl.price, pl.orders ++ [o]⟩, ?_, ?_⟩
            · rw [hlook o₀.price, if_pos hpp, h]
            · simp [hmem₀]
        · refine ⟨pl₀, ?_, hmem₀⟩
          rw [hlook o₀.price, if_neg hpp]
          exact hpl₀
      · rw [hside2' o₀.side hos]
        exact hres
  · intro t o₀ hres
    rw [horders2]
    by_cases hts : t = o.side
    · rw [hts, hside2] at hres
      obtain ⟨pl₀, hpl₀, hmem₀⟩ := hres
      rw [hlook o₀.price] at hpl₀
      by_cases hpp : o₀.price = o.price
      · rw [if_pos hpp] at hpl₀
        cases h : lookupKey bs.prices o.price with
        | none =>
          rw [h] at hpl₀
          simp at hpl₀
          rw [← hpl₀] at hmem₀
          simp at hmem₀
          rw [hmem₀, lookupKey_insertKey_self]
        | some pl =>
          rw [h] at hpl₀
          simp at hpl₀
          rw [← hpl₀] at hmem₀
          simp at hmem₀
          rcases hmem₀ with hmem₀ | hmem₀
          · have hr : lookupKey b.orders o₀.id = some o₀ := by
              refine hInv.resident_ok o.side o₀ ⟨pl, ?_, hmem₀⟩
              rw [hpp]
              exact h
            rw [lookupKey_insertKey_ne _ _ (hfresh_q pl o.price h o₀ hmem₀)]
            exact hr
          · rw [hmem₀, lookupKey_insertKey_self]
      · rw [if_neg hpp] at hpl₀
        have hr : lookupKey b.orders o₀.id = some o₀ :=
          hInv.resident_ok o.side o₀ ⟨pl₀, hpl₀, hmem₀⟩
        have hne : o₀.id ≠ o.id := hfresh_q pl₀ o₀.price hpl₀ o₀ hmem₀
        rw [lookupKey_insertKey_ne _ _ hne]
        exact hr
    · rw [hside2' t hts] at hres
      have hr := hInv.resident_ok t o₀ hres
      have hne : o₀.id ≠ o.id := by
        intro he
        rw [he, hfresh] at hr
        exact Option.noConfusion hr
      rw [lookupKey_insertKey_ne _ _ hne]
      exact hr
  · -- noncross: the own side gains the key `o.price`, which does not cross
    intro ka hka kb hkb
    cases hside : o.side with
    | Ask =>
      have hbids : b2.get_side Side.Bid = b.get_side Side.Bid := by
        refine hside2' Side.Bid ?_
        rw [hside]
        simp
      have hkb' : kb ∈ keysOf b.bids.prices := by
        have : b2.bids = b.bids := by
          rw [← get_side_bid b2, hbids, get_side_bid]
        rwa [this] at hkb
      have hka2 : ka ∈ keysOf (bs.append o).2.prices := by
        have : b2.asks = (bs.append o).2 := by
          rw [← get_side_ask b2, ← hside2, hside]
        rwa [this] at hka
      rcases (BookSide.append_keys bs o ka).mp hka2 with hka' | hka'
      · -- the new key: every bid key is below `o.price`
        subst hka'
        have hmax : b.best_bid_price = listMax? (keysOf b.bids.prices) :=
          best_bid_eq_max_key b hInv.bids_wf.price_eq
        cases hbb : listMax? (keysOf b.bids.prices) with
        | none =>
          rw [listMax?_eq_none_iff] at hbb
          rw [hbb] at hkb'
          simp at hkb'
        | some best =>
          have hcmp := hnc best (by
            rw [hside]
            show b.get_best_for_side Side.Bid = some best
            rw [OrderBook.get_best_for_side]
            simp only [if_neg (by simp : ¬ (Side.Bid = Side.Ask))]
            rw [hmax, hbb])
          rw [hside] at hcmp
          simp [get_cmp_for_side] at hcmp
          have hlt : best < o.price := hcmp
          have hle : kb ≤ best := ((listMax?_spec _ best).mp hbb).2 kb hkb'
          exact lt_of_le_of_lt hle hlt
      · have hka'' : ka ∈ keysOf b.asks.prices := by
          rw [hbs, hside, get_side_ask] at hka'
          exact hka'
        exact hInv.noncross ka hka'' kb hkb'
    | Bid =>
      have hasks : b2.get_side Side.Ask = b.get_side Side.Ask := by
        refine hside2' Side.Ask ?_
        rw [hside]
        simp
      have hka' : ka ∈ keysOf b.asks.prices := by
        have : b2.asks = b.asks := by
          rw [← get_side_ask b2, hasks, get_side_ask]
        rwa [this] at hka
      have hkb2 : kb ∈ keysOf (bs.append o).2.prices := by
        have : b2.bids = (bs.append o).2 := by
          rw [← get_side_bid b2, ← hside2, hside]
        rwa [this] at hkb
      rcases (BookSide.append_keys bs o kb).mp hkb2 with hkb' | hkb'
      · subst hkb'
        have hmin : b.best_ask_price = listMin? (keysOf b.asks.prices) :=
          best_ask_eq_min_key b hInv.asks_wf.price_eq
        cases hba : listMin? (keysOf b.asks.prices) with
        | none =>
          rw [listMin?_eq_none_iff] at hba
          rw [hba] at hka'
          simp at hka'
        | some best =>
          have hcmp := hnc best (by
            rw [hside]
            show b.get_best_for_side Side.Ask = some best
            rw [show b.get_best_for_side Side.Ask = b.best_ask_price from rfl, hmin, hba])
          rw [hside] at hcmp
          simp [get_cmp_for_side] at hcmp
          have hlt : o.price < best := hcmp
          have hle : best ≤ ka := ((listMin?_spec _ best).mp hba).2 ka hka'
          exact lt_of_lt_of_le hlt hle
      · have hkb'' : kb ∈ keysOf b.bids.prices := by
          rw [hbs, hside, get_side_bid] at hkb'
          exact hkb'
        exact hInv.noncross ka hka' kb hkb''

/-! ### Trade-path characterization -/

/-- A trade that matched nothing leaves the level untouched. -/
theorem PriceLevel.trade_none_inv {pl pl₂ : PriceLevel} {q : Nat}
    (h : pl.trade q = some (none, pl₂)) : pl₂ = pl := by
  rw [PriceLevel.trade] at h
  cases hfind : pl.orders.find? (fun x => x.quantity == q) with
  | none =>
    rw [hfind] at h
    simpa using h.symm
  | some target =>
    rw [hfind] at h
    simp only [PriceLevel.remove] at h
    cases hr : removeFirst pl.orders target with
    | none => rw [hr] at h; simp at h
    | some l => rw [hr] at h; simp at h

theorem set_side_orders_comm (b : OrderBook) (s : Side) (bs : BookSide)
    (l : List (Nat × Order)) :
    ({ b with orders := l } : OrderBook).set_side s bs =
      { b.set_side s bs with orders := l } := by
  cases s <;> rfl

theorem BookSide.trade_level_none {bs : BookSide} {p : Nat} (q : Nat)
    (h : lookupKey bs.prices p = none) : bs.trade p q = some (none, bs) := by
  rw [BookSide.trade, h]

theorem BookSide.trade_level_some {bs : BookSide} {p : Nat} (q : Nat) {pl : PriceLevel}
    (h : lookupKey bs.prices p = some pl) :
    bs.trade p q = (pl.trade q).map fun r =>
      (r.1,
       ⟨if r.2.is_empty then eraseKey p bs.prices
         else insertKey p r.2 bs.prices⟩) := by
  rw [BookSide.trade, h]

theorem BookSide.remove_level_none {bs : BookSide} {o : Order}
    (h : lookupKey bs.prices o.price = none) : bs.remove o = some (none, bs) := by
  rw [BookSide.remove, h]

theorem BookSide.remove_level_some {bs : BookSide} {o : Order} {pl : PriceLevel}
    (h : lookupKey bs.prices o.price = some pl) :
    bs.remove o = (pl.remove o).map fun r =>
      (some o,
       ⟨if r.2.is_empty then eraseKey o.price bs.prices
         else insertKey o.price r.2 bs.prices⟩) := by
  rw [BookSide.remove, h]

/-- A failed trade attempt leaves a well-formed book unchanged. -/
theorem trade_no_match_eq {b b1 : OrderBook} {s : Side} {p q : Nat}
    (hInv : Inv b) (h : b.trade s p q = some (none, b1)) : b1 = b := by
  rw [OrderBook.trade] at h
  cases hbt : (b.get_side s.not).trade p q with
  | none => rw [hbt] at h; simp at h
  | some r =>
    obtain ⟨out, bs1⟩ := r
    rw [hbt] at h
    simp at h
    obtain ⟨hout, hb1⟩ := h
    subst hout
    cases hpl : lookupKey (b.get_side s.not).prices p with
    | none =>
      rw [BookSide.trade_level_none q hpl] at hbt
      simp at hbt
      rw [← hb1, ← hbt]
      exact set_side_get_side b s.not
    | some pl =>
      rw [BookSide.trade_level_some q hpl] at hbt
      cases htr : pl.trade q with
      | none => rw [htr] at hbt; simp at hbt
      | some rt =>
        obtain ⟨rt1, rt2⟩ := rt
        rw [htr] at hbt
        simp at hbt
        obtain ⟨hrt1, hbs1⟩ := hbt
        subst hrt1
        have hrt2 : rt2 = pl := PriceLevel.trade_none_inv htr
        rw [hrt2] at hbs1
        have hne : pl.orders ≠ [] := (hInv.sideWF s.not).level_ne p pl hpl
        have hemp : pl.is_empty = false := by
          rw [PriceLevel.is_empty, List.isEmpty_eq_false]
          exact hne
        rw [hemp] at hbs1
        simp at hbs1
        rw [insertKey_lookup_eq _ hpl] at hbs1
        rw [← hb1, ← hbs1]
        exact set_side_get_side b s.not

/-- Successful `OrderBook::trade`: the level at the traded price loses its
first exact-quantity order. -/
theorem OrderBook.trade_match_decomp {b bt : OrderBook} {s : Side} {p q : Nat} {o : Order}
    (h : b.trade s p q = some (some o, bt)) :
    ∃ pl l1 l2,
      lookupKey (b.get_side s.not).prices p = some pl ∧
      pl.orders = l1 ++ o :: l2 ∧ (∀ x ∈ l1, x.quantity ≠ q) ∧ o.quantity = q ∧
      bt = b.set_side s.not
        ⟨if (⟨pl.volume - o.quantity, pl.price, l1 ++ l2⟩ : PriceLevel).is_empty
          then eraseKey p (b.get_side s.not).prices
          else insertKey p (⟨pl.volume - o.quantity, pl.price, l1 ++ l2⟩ : PriceLevel)
            (b.get_side s.not).prices⟩ := by
  rw [OrderBook.trade] at h
  cases hbt : (b.get_side s.not).trade p q with
  | none => rw [hbt] at h; simp at h
  | some r =>
    obtain ⟨out, bs1⟩ := r
    rw [hbt] at h
    simp at h
    obtain ⟨hout, hb1⟩ := h
    subst hout
    cases hpl : lookupKey (b.get_side s.not).prices p with
    | none =>
      rw [BookSide.trade_level_none q hpl] at hbt
      simp at hbt
    | some pl =>
      rw [BookSide.trade_level_some q hpl] at hbt
      cases htr : pl.trade q with
      | none => rw [htr] at hbt; simp at hbt
      | some rt =>
        obtain ⟨rt1, rt2⟩ := rt
        rw [htr] at hbt
        simp at hbt
        obtain ⟨hrt1, hbs1⟩ := hbt
        subst hrt1
        obtain ⟨hq, l1, l2, hdec, hl1, hpl'⟩ := PriceLevel.trade_some_decomp htr
        refine ⟨pl, l1, l2, rfl, hdec, hl1, hq, ?_⟩
        rw [← hb1, ← hbs1, hpl']

/-- Invariant preservation through a successful trade inside `try_trade`
(removal of the maker from the book side and from the flat index). -/
theorem inv_trade_removal {b bt : OrderBook} {s : Side} {p q : Nat} {o : Order}
    (hInv : Inv b) (h : b.trade s p q = some (some o, bt)) :
    Inv { bt with orders := eraseKey o.id bt.orders } := by
  obtain ⟨pl, l1, l2, hpl, hdec, _, _, hbt⟩ := OrderBook.trade_match_decomp h
  have homem : o ∈ pl.orders := by rw [hdec]; simp
  have hop : o.price = p := (hInv.sideWF s.not).order_price p pl hpl o homem
  subst hop
  have horders : bt.orders = b.orders := by rw [hbt, set_side_orders]
  rw [horders, hbt]
  exact inv_after_removal b s.not o pl l1 l2 hInv hpl hdec

/-! ### `try_trade` characterization -/

theorem BookSide.min_some_of_mem {bs : BookSide} {p : Nat}
    (h : p ∈ keysOf bs.prices) : ∃ pl, bs.min = some pl := by
  rw [BookSide.min]
  cases hm : listMin? (keysOf bs.prices) with
  | none =>
    rw [listMin?_eq_none_iff] at hm
    rw [hm] at h
    simp at h
  | some m =>
    have hmem : m ∈ keysOf bs.prices := ((listMin?_spec _ m).mp hm).1
    rw [mem_keysOf_iff] at hmem
    cases hl : lookupKey bs.prices m with
    | none => rw [hl] at hmem; simp at hmem
    | some pl => exact ⟨pl, by simp [hl]⟩

theorem BookSide.max_some_of_mem {bs : BookSide} {p : Nat}
    (h : p ∈ keysOf bs.prices) : ∃ pl, bs.max = some pl := by
  rw [BookSide.max]
  cases hm : listMax? (keysOf bs.prices) with
  | none =>
    rw [listMax?_eq_none_iff] at hm
    rw [hm] at h
    simp at h
  | some m =>
    have hmem : m ∈ keysOf bs.prices := ((listMax?_spec _ m).mp hm).1
    rw [mem_keysOf_iff] at hmem
    cases hl : lookupKey bs.prices m with
    | none => rw [hl] at hmem; simp at hmem
    | some pl => exact ⟨pl, by simp [hl]⟩

/-- When a trade matched, the opposite side was non-empty beforehand, so the
prior best price (the value `try_trade` unwraps) exists. -/
theorem trade_some_best_isSome {b bt : OrderBook} {side : Side} {price quantity : Nat}
    {o : Order} (h : b.trade side price quantity = some (some o, bt)) :
    ∃ tp, b.get_best_for_side side.not = some tp := by
  obtain ⟨pl, l1, l2, hpl, _, _, _, _⟩ := OrderBook.trade_match_decomp h
  have hmem : price ∈ keysOf (b.get_side side.not).prices := by
    rw [mem_keysOf_iff, hpl]
    simp
  cases hs : side.not with
  | Ask =>
    rw [hs] at hmem
    obtain ⟨pl₀, hmin⟩ := BookSide.min_some_of_mem hmem
    refine ⟨pl₀.price, ?_⟩
    show b.best_ask_price = some pl₀.price
    rw [OrderBook.best_ask_price]
    rw [show b.asks = b.get_side Side.Ask from rfl, hmin]
    rfl
  | Bid =>
    rw [hs] at hmem
    obtain ⟨pl₀, hmax⟩ := BookSide.max_some_of_mem hmem
    refine ⟨pl₀.price, ?_⟩
    show b.best_bid_price = some pl₀.price
    rw [OrderBook.best_bid_price]
    rw [show b.bids = b.get_side Side.Bid from rfl, hmax]
    rfl

/-- Full behaviour of `try_trade` once the inner trade has matched and the
prior best price is known. -/
theorem try_trade_match {b b2 : OrderBook} {side : Side} {price quantity : Nat}
    {user_id order_id : Nat} {o : Order} {tp : Nat}
    (ht : b.trade side price quantity = some (some o, b2))
    (htp : b.get_best_for_side side.not = some tp) :
    b.try_trade side price quantity user_id order_id =
      (if tp = price then
        match ({ b2 with orders := eraseKey o.id b2.orders } :
            OrderBook).get_best_for_side side.not with
        | none => none
        | some t =>
          some (some (.Traded user_id order_id
            (if o.side = Side.Ask then user_id else o.user_id)
            (if o.side = Side.Ask then order_id else o.id)
            (if o.side = Side.Ask then o.user_id else user_id)
            (if o.side = Side.Ask then o.id else order_id)
            price quantity (some side.not) (some t)
            ((({ b2 with orders := eraseKey o.id b2.orders } :
              OrderBook).get_side side.not).get_price_volume t)),
            { b2 with orders := eraseKey o.id b2.orders })
      else
        some (some (.Traded user_id order_id
          (if o.side = Side.Ask then user_id else o.user_id)
          (if o.side = Side.Ask then order_id else o.id)
          (if o.side = Side.Ask then o.user_id else user_id)
          (if o.side = Side.Ask then o.id else order_id)
          price quantity none none none),
          { b2 with orders := eraseKey o.id b2.orders })) := by
  rw [OrderBook.try_trade, htp, ht]
  show (if tp = price then _ else _) = _
  by_cases hc : tp = price
  · rw [if_pos hc, if_pos hc]
    cases hnb : ({ b2 with orders := eraseKey o.id b2.orders } :
        OrderBook).get_best_for_side side.not with
    | none => rfl
    | some t =>
      by_cases ho : o.side = Side.Ask <;> simp [ho]
  · rw [if_neg hc, if_neg hc]
    by_cases ho : o.side = Side.Ask <;> simp [ho]

/-- A `try_trade` that reports no trade is exactly a failed inner trade. -/
theorem try_trade_none {b b1 : OrderBook} {side : Side}
    {price quantity user_id order_id : Nat}
    (h : b.try_trade side price quantity user_id order_id = some (none, b1)) :
    b.trade side price quantity = some (none, b1) := by
  cases ht : b.trade side price quantity with
  | none =>
    rw [OrderBook.try_trade, ht] at h
    simp at h
  | some r =>
    obtain ⟨mo, b2⟩ := r
    cases mo with
    | none =>
      rw [OrderBook.try_trade, ht] at h
      simp at h
      rw [h]
    | some o =>
      exfalso
      obtain ⟨tp, htp⟩ := trade_some_best_isSome ht
      rw [try_trade_match ht htp] at h
      by_cases hc : tp = price
      · rw [if_pos hc] at h
        cases hnb : ({ b2 with orders := eraseKey o.id b2.orders } :
            OrderBook).get_best_for_side side.not with
        | none => rw [hnb] at h; simp at h
        | some t => rw [hnb] at h; simp at h
      · rw [if_neg hc] at h
        simp at h

/-- Invariant preservation through a reported trade. -/
theorem inv_try_trade {b b' : OrderBook} {side : Side}
    {price quantity user_id order_id : Nat} {out : OrderOutcome}
    (hInv : Inv b)
    (h : b.try_trade side price quantity user_id order_id = some (some out, b')) :
    Inv b' := by
  cases ht : b.trade side price quantity with
  | none =>
    rw [OrderBook.try_trade, ht] at h
    simp at h
  | some r =>
    obtain ⟨mo, b2⟩ := r
    cases mo with
    | none =>
      rw [OrderBook.try_trade, ht] at h
      simp at h
    | some o =>
      obtain ⟨tp, htp⟩ := trade_some_best_isSome ht
      rw [try_trade_match ht htp] at h
      have hb' : b' = { b2 with orders := eraseKey o.id b2.orders } := by
        by_cases hc : tp = price
        · rw [if_pos hc] at h
          cases hnb : ({ b2 with orders := eraseKey o.id b2.orders } :
              OrderBook).get_best_for_side side.not with
          | none => rw [hnb] at h; simp at h
          | some t =>
            rw [hnb] at h
            simp at h
            exact h.2.symm
        · rw [if_neg hc] at h
          simp at h
          exact h.2.symm
      rw [hb']
      exact inv_trade_removal hInv ht

/-! ### `submit_order` path lemmas -/

theorem submit_eq_of_tt_none {b : OrderBook} {side : Side}
    {price quantity user_id order_id : Nat}
    (h : b.try_trade side price quantity user_id order_id = none) :
    b.submit_order side price quantity user_id order_id = none := by
  rw [OrderBook.submit_order, h]
  rfl

theorem submit_eq_of_trade {b b1 : OrderBook} {side : Side}
    {price quantity user_id order_id : Nat} {outc : OrderOutcome}
    (h : b.try_trade side price quantity user_id order_id = some (some outc, b1)) :
    b.submit_order side price quantity user_id order_id = some (outc, b1) := by
  rw [OrderBook.submit_order, h]
  rfl

theorem submit_eq_of_no_trade {b b1 : OrderBook} {side : Side}
    {price quantity user_id order_id : Nat}
    (h : b.try_trade side price quantity user_id order_id = some (none, b1)) :
    b.submit_order side price quantity user_id order_id =
      b1.submit_rest side price quantity user_id order_id := by
  rw [OrderBook.submit_order, h]
  rfl

theorem submit_rest_cross {b1 : OrderBook} {side : Side}
    {price quantity user_id order_id best : Nat}
    (hopp : b1.get_best_for_side side.not = some best)
    (hc : get_cmp_for_side side price best = true) :
    b1.submit_rest side price quantity user_id order_id =
      some (.Rejected user_id order_id, b1) := by
  simp only [OrderBook.submit_rest]
  rw [hopp]
  simp [hc]

theorem submit_rest_top_own_empty {b1 : OrderBook} {side : Side}
    {price quantity user_id order_id : Nat}
    (hopp : ∀ best, b1.get_best_for_side side.not = some best →
      get_cmp_for_side side price best = false)
    (hown : b1.get_best_for_side side = none) :
    b1.submit_rest side price quantity user_id order_id =
      some (.TopOfBook user_id order_id side
          (b1.append (Order.new order_id user_id side price quantity)).1.1
          (b1.append (Order.new order_id user_id side price quantity)).1.2,
        (b1.append (Order.new order_id user_id side price quantity)).2) := by
  simp only [OrderBook.submit_rest]
  rw [hown]
  cases ho : b1.get_best_for_side side.not with
  | none => rfl
  | some best => simp [hopp best ho]

theorem submit_rest_top_better {b1 : OrderBook} {side : Side}
    {price quantity user_id order_id best2 : Nat}
    (hopp : ∀ best, b1.get_best_for_side side.not = some best →
      get_cmp_for_side side price best = false)
    (hown : b1.get_best_for_side side = some best2)
    (hc : get_cmp_for_side side price best2 = true) :
    b1.submit_rest side price quantity user_id order_id =
      some (.TopOfBook user_id order_id side
          (b1.append (Order.new order_id user_id side price quantity)).1.1
          (b1.append (Order.new order_id user_id side price quantity)).1.2,
        (b1.append (Order.new order_id user_id side price quantity)).2) := by
  simp only [OrderBook.submit_rest]
  rw [hown]
  cases ho : b1.get_best_for_side side.not with
  | none => simp [hc]
  | some best => simp [hopp best ho, hc]

theorem submit_rest_created {b1 : OrderBook} {side : Side}
    {price quantity user_id order_id best2 : Nat}
    (hopp : ∀ best, b1.get_best_for_side side.not = some best →
      get_cmp_for_side side price best = false)
    (hown : b1.get_best_for_side side = some best2)
    (hc : get_cmp_for_side side price best2 = false) :
    b1.submit_rest side price quantity user_id order_id =
      some (.Created user_id order_id,
        (b1.append (Order.new order_id user_id side price quantity)).2) := by
  simp only [OrderBook.submit_rest]
  rw [hown]
  cases ho : b1.get_best_for_side side.not with
  | none => simp [hc]
  | some best => simp [hopp best ho, hc]

/-- Invariant preservation through `submit_order` (under the driver contract
that the submitted id is fresh). -/
theorem inv_submit {b b' : OrderBook} {side : Side}
    {price quantity user_id order_id : Nat} {out : OrderOutcome}
    (hInv : Inv b) (hfresh : lookupKey b.orders order_id = none)
    (h : b.submit_order side price quantity user_id order_id = some (out, b')) :
    Inv b' := by
  cases htt : b.try_trade side price quantity user_id order_id with
  | none => rw [submit_eq_of_tt_none htt] at h; exact Option.noConfusion h
  | some r =>
    obtain ⟨mo, b1⟩ := r
    cases mo with
    | some outc =>
      rw [submit_eq_of_trade htt] at h
      have hb : b1 = b' := by
        simp at h
        exact h.2
      rw [← hb]
      exact inv_try_trade hInv htt
    | none =>
      have hb1 : b1 = b := trade_no_match_eq hInv (try_trade_none htt)
      subst hb1
      rw [submit_eq_of_no_trade htt] at h
      have hord : (Order.new order_id user_id side price quantity).side = side := rfl
      have hordid : (Order.new order_id user_id side price quantity).id = order_id := rfl
      cases hopp : b1.get_best_for_side side.not with
      | some best =>
        cases hc : get_cmp_for_side side price best with
        | true =>
          rw [submit_rest_cross hopp hc] at h
          have : b1 = b' := by
            simp at h
            exact h.2
          rw [← this]
          exact hInv
        | false =>
          have hnc : ∀ bst, b1.get_best_for_side side.not = some bst →
              get_cmp_for_side side price bst = false := by
            intro bst hbst
            rw [hopp] at hbst
            cases hbst
            exact hc
          have happ : Inv (b1.append (Order.new order_id user_id side price quantity)).2 := by
            refine inv_append b1 _ hInv ?_ ?_
            · rw [hordid]
              exact hfresh
            · rw [hord]
              exact hnc
          cases hown : b1.get_best_for_side side with
          | none =>
            rw [submit_rest_top_own_empty hnc hown] at h
            have : (b1.append (Order.new order_id user_id side price quantity)).2 = b' := by
              simp at h
              exact h.2
            rw [← this]
            exact happ
          | some best2 =>
            cases hc2 : get_cmp_for_side side price best2 with
            | true =>
              rw [submit_rest_top_better hnc hown hc2] at h
              have : (b1.append (Order.new order_id user_id side price quantity)).2 = b' := by
                simp at h
                exact h.2
              rw [← this]
              exact happ
            | false =>
              rw [submit_rest_created hnc hown hc2] at h
              have : (b1.append (Order.new order_id user_id side price quantity)).2 = b' := by
                simp at h
                exact h.2
              rw [← this]
              exact happ
      | none =>
        have hnc : ∀ bst, b1.get_best_for_side side.not = some bst →
            get_cmp_for_side side price bst = false := by
          intro bst hbst
          rw [hopp] at hbst
          exact Option.noConfusion hbst
        have happ : Inv (b1.append (Order.new order_id user_id side price quantity)).2 := by
          refine inv_append b1 _ hInv ?_ ?_
          · rw [hordid]
            exact hfresh
          · rw [hord]
            exact hnc
        cases hown : b1.get_best_for_side side with
        | none =>
          rw [submit_rest_top_own_empty hnc hown] at h
          have : (b1.append (Order.new order_id user_id side price quantity)).2 = b' := by
            simp at h
            exact h.2
          rw [← this]
          exact happ
        | some best2 =>
          cases hc2 : get_cmp_for_side side price best2 with
          | true =>
            rw [submit_rest_top_better hnc hown hc2] at h
            have : (b1.append (Order.new order_id user_id side price quantity)).2 = b' := by
              simp at h
              exact h.2
            rw [← this]
            exact happ
          | false =>
            rw [submit_rest_created hnc hown hc2] at h
            have : (b1.append (Order.new order_id user_id side price quantity)).2 = b' := by
              simp at h
              exact h.2
            rw [← this]
            exact happ

/-! ### `cancel_order` path lemmas -/

theorem get_best_isSome_of_key {b : OrderBook} {s : Side} {p : Nat}
    (h : (lookupKey (b.get_side s).prices p).isSome) :
    ∃ tp, b.get_best_for_side s = some tp := by
  have hmem : p ∈ keysOf (b.get_side s).prices := by
    rw [mem_keysOf_iff]
    exact h
  cases s with
  | Ask =>
    obtain ⟨pl₀, hmin⟩ := BookSide.min_some_of_mem hmem
    refine ⟨pl₀.price, ?_⟩
    show b.best_ask_price = some pl₀.price
    rw [OrderBook.best_ask_price, show b.asks = b.get_side Side.Ask from rfl, hmin]
    rfl
  | Bid =>
    obtain ⟨pl₀, hmax⟩ := BookSide.max_some_of_mem hmem
    refine ⟨pl₀.price, ?_⟩
    show b.best_bid_price = some pl₀.price
    rw [OrderBook.best_bid_price, show b.bids = b.get_side Side.Bid from rfl, hmax]
    rfl

/-- A resident order is removed successfully, with the canonical removal
shape. -/
theorem remove_resident {b : OrderBook} {o : Order}
    (hres : ResidentAt (b.get_side o.side) o) :
    ∃ pl l1 l2,
      lookupKey (b.get_side o.side).prices o.price = some pl ∧
      pl.orders = l1 ++ o :: l2 ∧ o ∉ l1 ∧
      b.remove o = some (some o,
        { b.set_side o.side
            ⟨if (⟨pl.volume - o.quantity, pl.price, l1 ++ l2⟩ : PriceLevel).is_empty
              then eraseKey o.price (b.get_side o.side).prices
              else insertKey o.price
                (⟨pl.volume - o.quantity, pl.price, l1 ++ l2⟩ : PriceLevel)
                (b.get_side o.side).prices⟩
          with orders := eraseKey o.id b.orders }) := by
  obtain ⟨pl, hpl, homem⟩ := hres
  have hsome := removeFirst_isSome_of_mem homem
  cases hrf : removeFirst pl.orders o with
  | none => rw [hrf] at hsome; simp at hsome
  | some l' =>
    obtain ⟨l1, l2, hdec, hl', hnot⟩ := removeFirst_decomp hrf
    refine ⟨pl, l1, l2, hpl, hdec, hnot, ?_⟩
    rw [OrderBook.remove]
    rw [show (({ b with orders := eraseKey o.id b.orders } : OrderBook).get_side o.side)
      = b.get_side o.side from get_side_set_orders b o.side _]
    rw [BookSide.remove_level_some hpl]
    simp only [PriceLevel.remove]
    rw [hrf, hl']
    simp only [Option.map_some']
    rw [set_side_orders_comm]

theorem cancel_none_of_unknown {b : OrderBook} {order_id : Nat}
    (h : lookupKey b.orders order_id = none) : b.cancel_order order_id = none := by
  rw [OrderBook.cancel_order, h]

theorem cancel_eq_created {b : OrderBook} {order_id : Nat} {o : Order} {top : Nat}
    {r : Option Order × OrderBook}
    (hlook : lookupKey b.orders order_id = some o)
    (hbest : b.get_best_for_side o.side = some top)
    (hrem : b.remove o = some r)
    (hne : top ≠ o.price) :
    b.cancel_order order_id = some (.Created o.user_id order_id, r.2) := by
  simp only [OrderBook.cancel_order, hlook]
  rw [hbest, hrem]
  simp [hne]

theorem cancel_eq_top {b : OrderBook} {order_id : Nat} {o : Order} {top : Nat}
    {r : Option Order × OrderBook}
    (hlook : lookupKey b.orders order_id = some o)
    (hbest : b.get_best_for_side o.side = some top)
    (hrem : b.remove o = some r)
    (heq : top = o.price) :
    b.cancel_order order_id = some
      (.TopOfBook o.user_id order_id o.side (r.2.get_best_for_side o.side)
        ((r.2.get_best_for_side o.side).bind fun t =>
          (r.2.get_side o.side).get_price_volume t), r.2) := by
  simp only [OrderBook.cancel_order, hlook]
  rw [hbest, hrem]
  simp [heq]

/-- Invariant preservation through `cancel_order`. -/
theorem inv_cancel {b b' : OrderBook} {order_id : Nat} {out : OrderOutcome}
    (hInv : Inv b) (h : b.cancel_order order_id = some (out, b')) : Inv b' := by
  cases hlook : lookupKey b.orders order_id with
  | none =>
    rw [cancel_none_of_unknown hlook] at h
    exact Option.noConfusion h
  | some o =>
    obtain ⟨_, hres⟩ := hInv.index_ok order_id o hlook
    obtain ⟨pl, l1, l2, hpl, hdec, _, hrem⟩ := remove_resident hres
    obtain ⟨top, hbest⟩ := get_best_isSome_of_key (b := b) (s := o.side) (p := o.price)
      (by rw [hpl]; simp)
    have hInv' := inv_after_removal b o.side o pl l1 l2 hInv hpl hdec
    by_cases hne : top = o.price
    · rw [cancel_eq_top hlook hbest hrem hne] at h
      simp at h
      rw [← h.2]
      exact hInv'
    · rw [cancel_eq_created hlook hbest hrem hne] at h
      simp at h
      rw [← h.2]
      exact hInv'

/-! ### Reachability gives the invariant -/

theorem inv_new : Inv OrderBook.new := by
  refine ⟨?_, ?_, ?_, ?_, ?_⟩
  · constructor <;> intro k pl h <;> simp [OrderBook.new, BookSide.new, lookupKey] at h
  · constructor <;> intro k pl h <;> simp [OrderBook.new, BookSide.new, lookupKey] at h
  · intro i o h
    simp [OrderBook.new, lookupKey] at h
  · intro s o hres
    obtain ⟨pl, hpl, _⟩ := hres
    cases s <;> simp [OrderBook.new, OrderBook.get_side, BookSide.new, lookupKey] at hpl
  · intro ka hka
    simp [OrderBook.new, BookSide.new, keysOf] at hka

theorem reachable_inv {b : OrderBook} (h : Reachable b) : Inv b := by
  induction h with
  | base => exact inv_new
  | submit hr hfresh hsub ih => exact inv_submit ih hfresh hsub
  | cancel hr hcan ih => exact inv_cancel ih hcan

/-! ### Volume invariant machinery -/

theorem removeFirst_eq_none_of_not_mem {l : List Order} {o : Order} (h : o ∉ l) :
    removeFirst l o = none := by
  induction l with
  | nil => rfl
  | cons x xs ih =>
    have hx : x ≠ o := fun he => h (by simp [he])
    have hxs : o ∉ xs := fun he => h (by simp [he])
    rw [removeFirst, if_neg hx, ih hxs]
    rfl

/-- One step of the `PriceLevel` interface keeps `volume` equal to the sum of
resident quantities. -/
theorem applyOp_vol {pl pl' : PriceLevel} {op : PLOp}
    (hvol : pl.volume = (pl.orders.map fun o => o.quantity).sum)
    (h : pl.applyOp op = some pl') :
    pl'.volume = (pl'.orders.map fun o => o.quantity).sum := by
  cases op with
  | append o =>
    simp only [PriceLevel.applyOp] at h
    have hpl' : pl' = (pl.append o).2 := by simpa using h.symm
    rw [hpl', PriceLevel.append]
    simp [hvol]
  | remove o =>
    simp only [PriceLevel.applyOp, PriceLevel.remove] at h
    cases hrf : removeFirst pl.orders o with
    | none => rw [hrf] at h; simp at h
    | some l' =>
      rw [hrf] at h
      simp at h
      obtain ⟨l1, l2, hdec, hl', _⟩ := removeFirst_decomp hrf
      rw [← h, hl']
      have hsum : (pl.orders.map fun x => x.quantity).sum =
          ((l1.map fun x => x.quantity).sum + o.quantity) +
            (l2.map fun x => x.quantity).sum := by
        rw [hdec]
        simp [Nat.add_assoc, Nat.add_comm, Nat.add_left_comm]
      simp only []
      rw [hvol, hsum]
      simp
      omega
  | trade q =>
    simp only [PriceLevel.applyOp] at h
    cases htr : pl.trade q with
    | none => rw [htr] at h; simp at h
    | some rt =>
      obtain ⟨mo, pl₂⟩ := rt
      rw [htr] at h
      simp at h
      cases mo with
      | none =>
        have := PriceLevel.trade_none_inv htr
        rw [← h, this]
        exact hvol
      | some o =>
        obtain ⟨hq, l1, l2, hdec, _, hpl₂⟩ := PriceLevel.trade_some_decomp htr
        rw [← h, hpl₂]
        have hsum : (pl.orders.map fun x => x.quantity).sum =
            ((l1.map fun x => x.quantity).sum + o.quantity) +
              (l2.map fun x => x.quantity).sum := by
          rw [hdec]
          simp [Nat.add_assoc, Nat.add_comm, Nat.add_left_comm]
        simp only []
        rw [hvol, hsum]
        simp
        omega

theorem runOps_vol {pl pl' : PriceLevel} {ops : List PLOp}
    (hvol : pl.volume = (pl.orders.map fun o => o.quantity).sum)
    (h : pl.runOps ops = some pl') :
    pl'.volume = (pl'.orders.map fun o => o.quantity).sum := by
  induction ops generalizing pl with
  | nil =>
    simp [PriceLevel.runOps] at h
    rw [← h]
    exact hvol
  | cons op ops ih =>
    rw [PriceLevel.runOps] at h
    cases hstep : pl.applyOp op with
    | none => rw [hstep] at h; simp at h
    | some pl₁ =>
      rw [hstep] at h
      simp at h
      exact ih (applyOp_vol hvol hstep) h

/-! ### The claims -/

/-- C3: `PriceLevel::trade` scans the queue in arrival order, removes exactly
the first resident order whose quantity equals the request and returns it
(also subtracting its quantity from the volume); when no resident order has
that exact quantity it returns none and leaves the level unchanged. In
particular the earliest-appended of two equal-quantity orders is the one
matched. -/
theorem C3_trade_exact_first_fifo (pl : PriceLevel) (q : Nat) :
    ((∀ x ∈ pl.orders, x.quantity ≠ q) → pl.trade q = some (none, pl)) ∧
    (∀ o l1 l2, pl.orders = l1 ++ o :: l2 → (∀ x ∈ l1, x.quantity ≠ q) →
      o.quantity = q →
      pl.trade q = some (some o, ⟨pl.volume - o.quantity, pl.price, l1 ++ l2⟩)) :=
  ⟨fun h => PriceLevel.trade_none pl q h,
   fun o l1 l2 hdec hl1 hq => PriceLevel.trade_of_decomp pl q o l1 l2 hdec hl1 hq⟩

/-- C3 witness: with two resting quantity-7 orders at the same price, a trade
for 7 removes the first-appended one. -/
theorem C3_witness :
    (⟨14, 5, [Order.new 1 1 Side.Ask 5 7, Order.new 2 2 Side.Ask 5 7]⟩ :
      PriceLevel).trade 7 =
      some (some (Order.new 1 1 Side.Ask 5 7),
        ⟨7, 5, [Order.new 2 2 Side.Ask 5 7]⟩) :=
  (C3_trade_exact_first_fifo
      ⟨14, 5, [Order.new 1 1 Side.Ask 5 7, Order.new 2 2 Side.Ask 5 7]⟩ 7).2
    (Order.new 1 1 Side.Ask 5 7) [] [Order.new 2 2 Side.Ask 5 7]
    rfl (by simp) rfl

/-- C7: for every sequence of successful `append` / `remove` / `trade`
operations run from a newly created level, the level's `volume` equals the sum
of the quantities of the orders in its queue. -/
theorem C7_volume_invariant (p : Nat) (ops : List PLOp) (pl : PriceLevel)
    (h : (PriceLevel.new p).runOps ops = some pl) :
    pl.volume = (pl.orders.map fun o => o.quantity).sum :=
  runOps_vol (by simp [PriceLevel.new]) h

/-- C7 witness: a concrete append/append/trade/remove run. -/
theorem C7_witness :
    (PriceLevel.new 5).runOps
        [PLOp.append (Order.new 1 1 Side.Ask 5 7),
         PLOp.append (Order.new 2 2 Side.Ask 5 9),
         PLOp.trade 7,
         PLOp.append (Order.new 3 3 Side.Ask 5 4),
         PLOp.remove (Order.new 2 2 Side.Ask 5 9)] =
        some ⟨4, 5, [Order.new 3 3 Side.Ask 5 4]⟩ ∧
    (4 : Nat) = ([Order.new 3 3 Side.Ask 5 4].map fun o => o.quantity).sum :=
  ⟨by decide,
   C7_volume_invariant 5
     [PLOp.append (Order.new 1 1 Side.Ask 5 7),
      PLOp.append (Order.new 2 2 Side.Ask 5 9),
      PLOp.trade 7,
      PLOp.append (Order.new 3 3 Side.Ask 5 4),
      PLOp.remove (Order.new 2 2 Side.Ask 5 9)]
     ⟨4, 5, [Order.new 3 3 Side.Ask 5 4]⟩ (by decide)⟩

/-- C9 counterexample: a level is indexed at the order's price, yet
`BookSide::remove` panics (returns nothing) instead of returning the removed
order, because the order itself is not resident: the claim's "otherwise"
branch does not hold for every order. -/
theorem C9_counterexample :
    (lookupKey (⟨[(5, ⟨10, 5, [Order.new 1 1 Side.Ask 5 10]⟩)]⟩ : BookSide).prices
        (Order.new 2 2 Side.Ask 5 30).price).isSome ∧
    (⟨[(5, ⟨10, 5, [Order.new 1 1 Side.Ask 5 10]⟩)]⟩ : BookSide).remove
        (Order.new 2 2 Side.Ask 5 30) = none := by
  decide

/-- C9 (amended): `BookSide::remove` returns none and leaves the side
unchanged when no level is indexed at the order's price; when the level
exists and the order is resident in it, the order is removed, the level is
dropped if it empties, and the removed order is returned; when the level
exists but the order is not resident, the call panics. -/
theorem C9_remove_behaviour (bs : BookSide) (o : Order) :
    (lookupKey bs.prices o.price = none → bs.remove o = some (none, bs)) ∧
    (∀ pl l1 l2, lookupKey bs.prices o.price = some pl →
      pl.orders = l1 ++ o :: l2 → o ∉ l1 →
      bs.remove o = some (some o,
        ⟨if (⟨pl.volume - o.quantity, pl.price, l1 ++ l2⟩ : PriceLevel).is_empty
          then eraseKey o.price bs.prices
          else insertKey o.price
            (⟨pl.volume - o.quantity, pl.price, l1 ++ l2⟩ : PriceLevel) bs.prices⟩)) ∧
    (∀ pl, lookupKey bs.prices o.price = some pl → o ∉ pl.orders →
      bs.remove o = none) := by
  refine ⟨fun h => BookSide.remove_level_none h, ?_, ?_⟩
  · intro pl l1 l2 hpl hdec hnot
    rw [BookSide.remove_level_some hpl]
    simp only [PriceLevel.remove]
    rw [hdec, removeFirst_of_decomp l1 l2 o hnot]
    rfl
  · intro pl hpl hnot
    rw [BookSide.remove_level_some hpl]
    simp only [PriceLevel.remove]
    rw [removeFirst_eq_none_of_not_mem hnot]
    rfl

/-- C9 witness: removing the only resident order at a price deletes the
level; removing at an unindexed price returns none and leaves the side
unchanged. -/
theorem C9_witness :
    (⟨[]⟩ : BookSide).remove (Order.new 1 1 Side.Ask 5 10) =
        some (none, (⟨[]⟩ : BookSide)) ∧
    (⟨[(5, ⟨10, 5, [Order.new 1 1 Side.Ask 5 10]⟩)]⟩ : BookSide).remove
        (Order.new 1 1 Side.Ask 5 10) = some (some (Order.new 1 1 Side.Ask 5 10), ⟨[]⟩) :=
  ⟨(C9_remove_behaviour ⟨[]⟩ (Order.new 1 1 Side.Ask 5 10)).1 rfl,
   (C9_remove_behaviour ⟨[(5, ⟨10, 5, [Order.new 1 1 Side.Ask 5 10]⟩)]⟩
      (Order.new 1 1 Side.Ask 5 10)).2.1 ⟨10, 5, [Order.new 1 1 Side.Ask 5 10]⟩ [] []
      rfl rfl (by simp)⟩

/-- C1: spec Scenario 3 — submitting Ask(price 5, qty 50, owner 3, id 3)
against a book whose only resting order is Bid(price 5, qty 50, owner 2,
id 2) should return normally with a Traded outcome carrying `top_price = none`
and `volume = none`; instead the call panics (`none` in the model): the
`volume.unwrap()` in `try_trade` fires because the recomputed opposite best is
absent once the trade empties the bid side. -/
theorem C1_trade_emptying_side_panics :
    ((OrderBook.new.submit_order Side.Bid 5 50 2 2).bind fun r =>
      r.2.submit_order Side.Ask 5 50 3 3) = none := by
  decide

/-- C10: whenever the inner trade of `try_trade` returns a matched order, the
opposite side's prior best price exists (so the unwrap comparing it with the
traded price cannot fail), and the only remaining panic on the Traded path is
the recomputed-volume unwrap, which fires exactly when the traded price was
the prior best and the opposite side is left empty. -/
theorem C10_traded_path_unwrap_safety {b bt : OrderBook} {side : Side}
    {price quantity user_id order_id : Nat} {o : Order}
    (h : b.trade side price quantity = some (some o, bt)) :
    ∃ tp, b.get_best_for_side side.not = some tp ∧
      (b.try_trade side price quantity user_id order_id = none →
        tp = price ∧
        ({ bt with orders := eraseKey o.id bt.orders } :
          OrderBook).get_best_for_side side.not = none) := by
  obtain ⟨tp, htp⟩ := trade_some_best_isSome h
  refine ⟨tp, htp, ?_⟩
  intro hpanic
  rw [try_trade_match h htp] at hpanic
  by_cases hc : tp = price
  · refine ⟨hc, ?_⟩
    rw [if_pos hc] at hpanic
    cases hnb : ({ bt with orders := eraseKey o.id bt.orders } :
        OrderBook).get_best_for_side side.not with
    | none => rfl
    | some t => rw [hnb] at hpanic; simp at hpanic
  · rw [if_neg hc] at hpanic
    simp at hpanic

/-- C10 witness: the exact-match trade that empties the bid side has a prior
best (5), and the `try_trade` panic there is the volume unwrap (traded price
was the top, recomputed best is none). -/
theorem C10_witness :
    (5 : Nat) = 5 ∧
    (⟨[], ⟨[]⟩, ⟨[]⟩⟩ : OrderBook).get_best_for_side Side.Bid = none := by
  obtain ⟨tp, htp, himp⟩ := @C10_traded_path_unwrap_safety
    ⟨[(2, Order.new 2 2 Side.Bid 5 50)], ⟨[]⟩,
      ⟨[(5, ⟨50, 5, [Order.new 2 2 Side.Bid 5 50]⟩)]⟩⟩
    ⟨[(2, Order.new 2 2 Side.Bid 5 50)], ⟨[]⟩, ⟨[]⟩⟩
    Side.Ask 5 50 3 3 (Order.new 2 2 Side.Bid 5 50) (by decide)
  have htp5 : tp = 5 := by
    rw [show (⟨[(2, Order.new 2 2 Side.Bid 5 50)], ⟨[]⟩,
        ⟨[(5, ⟨50, 5, [Order.new 2 2 Side.Bid 5 50]⟩)]⟩⟩ :
        OrderBook).get_best_for_side Side.Ask.not = some 5 from by decide] at htp
    exact (Option.some_inj.mp htp).symm
  subst htp5
  exact himp (by decide)

/-- C2: after any successful `submit_order` on a reachable book (under the
driver contract of fresh ids), the best bid price is strictly below the best
ask price whenever both exist. -/
theorem C2_no_silent_crossing {b b' : OrderBook} {side : Side}
    {price quantity user_id order_id : Nat} {out : OrderOutcome}
    (hr : Reachable b) (hfresh : lookupKey b.orders order_id = none)
    (hsub : b.submit_order side price quantity user_id order_id = some (out, b'))
    {bb ba : Nat} (hbb : b'.best_bid_price = some bb)
    (hba : b'.best_ask_price = some ba) : bb < ba := by
  have hInv' : Inv b' := inv_submit (reachable_inv hr) hfresh hsub
  rw [best_bid_eq_max_key b' hInv'.bids_wf.price_eq] at hbb
  rw [best_ask_eq_min_key b' hInv'.asks_wf.price_eq] at hba
  exact hInv'.noncross ba ((listMin?_spec _ ba).mp hba).1 bb ((listMax?_spec _ bb).mp hbb).1

/-- C2 witness: submitting a bid at 5 under an ask at 10 leaves
best bid 5 < best ask 10. -/
theorem C2_witness : (5 : Nat) < 10 :=
  @C2_no_silent_crossing
    ⟨[(1, Order.new 1 1 Side.Ask 10 100)],
      ⟨[(10, ⟨100, 10, [Order.new 1 1 Side.Ask 10 100]⟩)]⟩, ⟨[]⟩⟩
    ⟨[(1, Order.new 1 1 Side.Ask 10 100), (2, Order.new 2 2 Side.Bid 5 50)],
      ⟨[(10, ⟨100, 10, [Order.new 1 1 Side.Ask 10 100]⟩)]⟩,
      ⟨[(5, ⟨50, 5, [Order.new 2 2 Side.Bid 5 50]⟩)]⟩⟩
    Side.Bid 5 50 2 2 (.TopOfBook 2 2 Side.Bid (some 5) (some 50))
    (@Reachable.submit OrderBook.new
      ⟨[(1, Order.new 1 1 Side.Ask 10 100)],
        ⟨[(10, ⟨100, 10, [Order.new 1 1 Side.Ask 10 100]⟩)]⟩, ⟨[]⟩⟩
      Side.Ask 10 100 1 1 (.TopOfBook 1 1 Side.Ask (some 10) (some 100))
      Reachable.base (by decide) (by decide))
    (by decide) (by decide) 5 10 (by decide) (by decide)

/-- C6: on every reachable book (under the driver contract), an order id in
the flat index maps to an order whose id is that key and which is resident in
the level at its price on its side's book, and conversely every resident
order is indexed under its id with the identical record. -/
theorem C6_index_book_consistency {b : OrderBook} (hr : Reachable b) :
    (∀ i o, lookupKey b.orders i = some o →
      o.id = i ∧ ResidentAt (b.get_side o.side) o) ∧
    (∀ s o, ResidentAt (b.get_side s) o → lookupKey b.orders o.id = some o) :=
  ⟨(reachable_inv hr).index_ok, (reachable_inv hr).resident_ok⟩

/-- C6 witness: in the book holding ask id 1, the indexed order is resident. -/
theorem C6_witness :
    ResidentAt
      ((⟨[(1, Order.new 1 1 Side.Ask 10 100)],
        ⟨[(10, ⟨100, 10, [Order.new 1 1 Side.Ask 10 100]⟩)]⟩, ⟨[]⟩⟩ :
        OrderBook).get_side Side.Ask)
      (Order.new 1 1 Side.Ask 10 100) :=
  ((C6_index_book_consistency
      (@Reachable.submit OrderBook.new
        ⟨[(1, Order.new 1 1 Side.Ask 10 100)],
          ⟨[(10, ⟨100, 10, [Order.new 1 1 Side.Ask 10 100]⟩)]⟩, ⟨[]⟩⟩
        Side.Ask 10 100 1 1 (.TopOfBook 1 1 Side.Ask (some 10) (some 100))
        Reachable.base (by decide) (by decide))).1
    1 (Order.new 1 1 Side.Ask 10 100) (by decide)).2

/-- C8: when the trade attempt matched nothing and the order would cross the
opposite side's best price (better-or-equal under the side comparator), the
call returns the `Rejected` outcome as an ordinary value and the book is
unchanged. -/
theorem C8_reject_without_state_change {b b1 : OrderBook} {side : Side}
    {price quantity user_id order_id best : Nat}
    (hr : Reachable b)
    (htt : b.try_trade side price quantity user_id order_id = some (none, b1))
    (hopp : b.get_best_for_side side.not = some best)
    (hc : get_cmp_for_side side price best = true) :
    b.submit_order side price quantity user_id order_id =
      some (.Rejected user_id order_id, b) := by
  have hInv := reachable_inv hr
  have hb1 : b1 = b := trade_no_match_eq hInv (try_trade_none htt)
  subst hb1
  rw [submit_eq_of_no_trade htt]
  exact submit_rest_cross hopp hc

/-- C8 witness: spec Scenario 4 — an ask at 4 against a best bid of 5 with no
exact match is rejected and the book is identical. -/
theorem C8_witness :
    (⟨[(2, Order.new 2 2 Side.Bid 5 50)], ⟨[]⟩,
      ⟨[(5, ⟨50, 5, [Order.new 2 2 Side.Bid 5 50]⟩)]⟩⟩ :
      OrderBook).submit_order Side.Ask 4 10 4 4 =
      some (.Rejected 4 4,
        ⟨[(2, Order.new 2 2 Side.Bid 5 50)], ⟨[]⟩,
          ⟨[(5, ⟨50, 5, [Order.new 2 2 Side.Bid 5 50]⟩)]⟩⟩) :=
  @C8_reject_without_state_change
    ⟨[(2, Order.new 2 2 Side.Bid 5 50)], ⟨[]⟩,
      ⟨[(5, ⟨50, 5, [Order.new 2 2 Side.Bid 5 50]⟩)]⟩⟩
    ⟨[(2, Order.new 2 2 Side.Bid 5 50)], ⟨[]⟩,
      ⟨[(5, ⟨50, 5, [Order.new 2 2 Side.Bid 5 50]⟩)]⟩⟩
    Side.Ask 4 10 4 4 5
    (@Reachable.submit OrderBook.new
      ⟨[(2, Order.new 2 2 Side.Bid 5 50)], ⟨[]⟩,
        ⟨[(5, ⟨50, 5, [Order.new 2 2 Side.Bid 5 50]⟩)]⟩⟩
      Side.Bid 5 50 2 2 (.TopOfBook 2 2 Side.Bid (some 5) (some 50))
      Reachable.base (by decide) (by decide))
    (by decide) (by decide) (by decide)

/-- C5: with the precondition satisfied (the id is indexed, hence its side is
non-empty), `cancel_order` removes the order from its book side and from the
index, and answers `Created` when the prior best price differs from the
canceled price, else `TopOfBook` with the recomputed best price and volume
(both none when the side empties); with the precondition violated the call
panics instead of returning an outcome. -/
theorem C5_cancel_behaviour {b : OrderBook} (hr : Reachable b) (order_id : Nat) :
    (lookupKey b.orders order_id = none → b.cancel_order order_id = none) ∧
    (∀ o, lookupKey b.orders order_id = some o →
      ∃ top b', b.get_best_for_side o.side = some top ∧
        b.remove o = some (some o, b') ∧
        lookupKey b'.orders order_id = none ∧
        b.cancel_order order_id = some
          ((if top = o.price
            then OrderOutcome.TopOfBook o.user_id order_id o.side
              (b'.get_best_for_side o.side)
              ((b'.get_best_for_side o.side).bind fun t =>
                (b'.get_side o.side).get_price_volume t)
            else OrderOutcome.Created o.user_id order_id), b')) := by
  constructor
  · exact cancel_none_of_unknown
  · intro o hlook
    have hInv := reachable_inv hr
    obtain ⟨hid, hres⟩ := hInv.index_ok order_id o hlook
    obtain ⟨pl, l1, l2, hpl, hdec, hnot, hrem⟩ := remove_resident hres
    obtain ⟨top, hbest⟩ := get_best_isSome_of_key (b := b) (s := o.side) (p := o.price)
      (by rw [hpl]; simp)
    refine ⟨top, _, hbest, hrem, ?_, ?_⟩
    · show lookupKey (eraseKey o.id b.orders) order_id = none
      rw [← hid]
      exact lookupKey_eraseKey_self b.orders o.id
    · by_cases htopeq : top = o.price
      · rw [if_pos htopeq]
        exact cancel_eq_top hlook hbest hrem htopeq
      · rw [if_neg htopeq]
        exact cancel_eq_created hlook hbest hrem htopeq

/-- C5 witness: spec Scenario 5 — canceling the only resting order reports
`TopOfBook` with no price and no volume, and leaves an empty book. -/
theorem C5_witness :
    (⟨[(1, Order.new 1 1 Side.Ask 10 100)],
      ⟨[(10, ⟨100, 10, [Order.new 1 1 Side.Ask 10 100]⟩)]⟩, ⟨[]⟩⟩ :
      OrderBook).cancel_order 1 =
      some (.TopOfBook 1 1 Side.Ask none none, (⟨[], ⟨[]⟩, ⟨[]⟩⟩ : OrderBook)) := by
  obtain ⟨top, b', h1, h2, h3, h4⟩ :=
    (C5_cancel_behaviour
      (@Reachable.submit OrderBook.new
        ⟨[(1, Order.new 1 1 Side.Ask 10 100)],
          ⟨[(10, ⟨100, 10, [Order.new 1 1 Side.Ask 10 100]⟩)]⟩, ⟨[]⟩⟩
        Side.Ask 10 100 1 1 (.TopOfBook 1 1 Side.Ask (some 10) (some 100))
        Reachable.base (by decide) (by decide)) 1).2
      (Order.new 1 1 Side.Ask 10 100) (by decide)
  rw [show (⟨[(1, Order.new 1 1 Side.Ask 10 100)],
      ⟨[(10, ⟨100, 10, [Order.new 1 1 Side.Ask 10 100]⟩)]⟩, ⟨[]⟩⟩ :
      OrderBook).get_best_for_side (Order.new 1 1 Side.Ask 10 100).side = some 10
    from by decide] at h1
  have htop : top = 10 := Option.some_inj.mp h1.symm
  subst htop
  rw [show (⟨[(1, Order.new 1 1 Side.Ask 10 100)],
      ⟨[(10, ⟨100, 10, [Order.new 1 1 Side.Ask 10 100]⟩)]⟩, ⟨[]⟩⟩ :
      OrderBook).remove (Order.new 1 1 Side.Ask 10 100) =
      some (some (Order.new 1 1 Side.Ask 10 100), (⟨[], ⟨[]⟩, ⟨[]⟩⟩ : OrderBook))
    from by decide] at h2
  have hb' : b' = ⟨[], ⟨[]⟩, ⟨[]⟩⟩ := by
    have := Option.some_inj.mp h2
    exact (Prod.mk.injEq _ _ _ _ ▸ this).2.symm
  subst hb'
  exact h4

/-- The pair returned by `OrderBook::append` is the recomputed best price of
the order's side and that level's volume. -/
theorem append_fst (b : OrderBook) (o : Order) :
    (b.append o).1.1 = (b.append o).2.get_best_for_side o.side ∧
    (b.append o).1.2 = ((b.append o).2.get_best_for_side o.side).bind
      fun t => ((b.append o).2.get_side o.side).get_price_volume t :=
  ⟨rfl, rfl⟩

theorem append_orders (b : OrderBook) (o : Order) :
    (b.append o).2.orders = insertKey o.id o b.orders := by
  show ((({ b with orders := insertKey o.id o b.orders } : OrderBook).set_side o.side
    ((({ b with orders := insertKey o.id o b.orders } : OrderBook).get_side o.side).append
      o).2)).orders = _
  rw [set_side_orders]

/-- C4: when no trade occurs and the order does not cross, the order is
appended and indexed; the outcome is `TopOfBook` (carrying the recomputed
best price of the order's own side and that level's volume) when that side
was empty or the price is better-or-equal to its best, and `Created`
otherwise. -/
theorem C4_resting_behaviour {b b1 : OrderBook} {side : Side}
    {price quantity user_id order_id : Nat}
    (hr : Reachable b)
    (htt : b.try_trade side price quantity user_id order_id = some (none, b1))
    (hnc : ∀ best, b.get_best_for_side side.not = some best →
      get_cmp_for_side side price best = false) :
    ((b.get_best_for_side side = none ∨
      ∃ bst, b.get_best_for_side side = some bst ∧
        get_cmp_for_side side price bst = true) →
      b.submit_order side price quantity user_id order_id =
        some (.TopOfBook user_id order_id side
          ((b.append (Order.new order_id user_id side price quantity)).2.get_best_for_side
            side)
          (((b.append (Order.new order_id user_id side price quantity)).2.get_best_for_side
            side).bind fun t =>
            ((b.append (Order.new order_id user_id side price quantity)).2.get_side
              side).get_price_volume t),
          (b.append (Order.new order_id user_id side price quantity)).2) ∧
      lookupKey (b.append (Order.new order_id user_id side price quantity)).2.orders
        order_id = some (Order.new order_id user_id side price quantity)) ∧
    (∀ bst, b.get_best_for_side side = some bst →
      get_cmp_for_side side price bst = false →
      b.submit_order side price quantity user_id order_id =
        some (.Created user_id order_id,
          (b.append (Order.new order_id user_id side price quantity)).2) ∧
      lookupKey (b.append (Order.new order_id user_id side price quantity)).2.orders
        order_id = some (Order.new order_id user_id side price quantity)) := by
  have hInv := reachable_inv hr
  have hb1 : b1 = b := trade_no_match_eq hInv (try_trade_none htt)
  rw [hb1] at htt
  have hindex : lookupKey
      (b.append (Order.new order_id user_id side price quantity)).2.orders order_id =
      some (Order.new order_id user_id side price quantity) := by
    rw [append_orders]
    exact lookupKey_insertKey_self b.orders order_id _
  constructor
  · intro hcase
    refine ⟨?_, hindex⟩
    rw [submit_eq_of_no_trade htt]
    rcases hcase with hown | ⟨bst, hown, hc⟩
    · rw [submit_rest_top_own_empty hnc hown]
      rfl
    · rw [submit_rest_top_better hnc hown hc]
      rfl
  · intro bst hown hc
    refine ⟨?_, hindex⟩
    rw [submit_eq_of_no_trade htt]
    rw [submit_rest_created hnc hown hc]

/-- C4 witness: spec Scenario 1 — the first ask on an empty book rests and
reports `TopOfBook` with its own price and quantity. -/
theorem C4_witness :
    OrderBook.new.submit_order Side.Ask 10 100 1 1 =
      some (.TopOfBook 1 1 Side.Ask (some 10) (some 100),
        (⟨[(1, Order.new 1 1 Side.Ask 10 100)],
          ⟨[(10, ⟨100, 10, [Order.new 1 1 Side.Ask 10 100]⟩)]⟩, ⟨[]⟩⟩ : OrderBook)) ∧
    lookupKey (⟨[(1, Order.new 1 1 Side.Ask 10 100)],
        ⟨[(10, ⟨100, 10, [Order.new 1 1 Side.Ask 10 100]⟩)]⟩, ⟨[]⟩⟩ :
        OrderBook).orders 1 = some (Order.new 1 1 Side.Ask 10 100) :=
  (@C4_resting_behaviour OrderBook.new OrderBook.new Side.Ask 10 100 1 1
    Reachable.base (by decide)
    (fun best h => Option.noConfusion h)).1
    (Or.inl (by decide))

end OB
